import Mathlib

/-!
Shallow embedding of the chess-pgn-replay pipeline (lexer, PGN grammar
driver, move interpreter, board engine) for checking the specification
claims against the code.

Conventions of the embedding:
* C++ `INTERNAL_ASSERT` failures and thrown `std::runtime_error`s are both
  modelled as `Except.error`; the spec classifies both as fatal.
* `std::optional<int>` becomes `Option Int`.
* The board `std::vector<std::vector<Cell>>` becomes `Fin 8 → Fin 8 → Cell`;
  reads through `bget` at out-of-range indices (undefined behaviour in the
  C++) return the cleared cell, writes through `bset` at out-of-range
  indices are the identity.  All claim scenarios stay in range.
* `unordered_set` candidate sets are modelled as lists in the insertion
  order of the enumeration loops (the C++ iteration order is unspecified).
* Bounded ray-cast loops are modelled with a fuel parameter that strictly
  dominates the 8-cell board diameter, so the fuel never runs out on
  in-range rays.
-/

set_option maxHeartbeats 1000000

namespace ChessReplay

/-- Fatal internal assertion, modelled from the spec: `INTERNAL_ASSERT` lives
in the missing `common.h`; per the spec (section 7) assertion failures are
fatal and abort the session. -/
def iassert (cond : Bool) (msg : String) : Except String Unit :=
  if cond then .ok () else .error msg

/-- Modelled from the spec: `r` lives in the missing `common.h`; the spec
(section 4.3) fixes rank digit `d` to row index `8 - d`, i.e. `r c = 56 - c`
on character codes, so `r 8 = 0` and `r 1 = 7`. -/
def r (c : Char) : Int := ('8'.toNat : Int) - (c.toNat : Int)

/-- Modelled from the spec: `f` lives in the missing `common.h`; the spec
(section 4.3) fixes file letter `l` to column index `l - a`, so `f a = 0`. -/
def f (c : Char) : Int := (c.toNat : Int) - ('a'.toNat : Int)

/-- `ChessBoard::Cell`. -/
structure Cell where
  is_white : Bool
  piece : Char
  double_move : Bool := false
deriving DecidableEq, Repr

/-- The cleared cell `{false, '.'}` used by `ChessBoard::clear`. -/
def emptyCell : Cell := ⟨false, '.', false⟩

/-- The 8x8 grid `board_`. -/
def Board := Fin 8 → Fin 8 → Cell

instance : DecidableEq Board := fun a b =>
  decidable_of_iff (∀ i j, a i j = b i j)
    ⟨fun h => funext fun i => funext fun j => h i j, fun h i j => by rw [h]⟩

/-- Read `board_[x][y]`; out-of-range reads (UB in the C++) give the cleared
cell. -/
def bget (b : Board) (x y : Int) : Cell :=
  if hx : 0 ≤ x ∧ x < 8 then
    if hy : 0 ≤ y ∧ y < 8 then
      b ⟨x.toNat, by omega⟩ ⟨y.toNat, by omega⟩
    else emptyCell
  else emptyCell

/-- Write `board_[x][y] = c`; out-of-range writes are the identity. -/
def bset (b : Board) (x y : Int) (c : Cell) : Board :=
  fun i j => if (i : Int) = x ∧ (j : Int) = y then c else b i j

/-- `board_[x][y].piece = p` (single-field write). -/
def bsetPiece (b : Board) (x y : Int) (p : Char) : Board :=
  bset b x y { bget b x y with piece := p }

/-- `board_[x][y].is_white = w` (single-field write). -/
def bsetWhite (b : Board) (x y : Int) (w : Bool) : Board :=
  bset b x y { bget b x y with is_white := w }

/-- `board_[x][y].double_move = v` (single-field write). -/
def bsetFlag (b : Board) (x y : Int) (v : Bool) : Board :=
  bset b x y { bget b x y with double_move := v }

/-- Back-rank piece layout `"RNBQKBNR"` of the `ChessBoard` constructor. -/
def highRank : List Char := ['R', 'N', 'B', 'Q', 'K', 'B', 'N', 'R']

/-- The standard starting position built by the `ChessBoard` constructor. -/
def initBoard : Board := fun x y =>
  if x.val = 0 then ⟨false, highRank.getD y.val '.', false⟩
  else if x.val = 1 then ⟨false, 'P', false⟩
  else if x.val = 6 then ⟨true, 'P', false⟩
  else if x.val = 7 then ⟨true, highRank.getD y.val '.', false⟩
  else emptyCell

/-- The fully cleared board of `ChessBoard::clear`. -/
def clearedBoard : Board := fun _ _ => emptyCell

/-- `all_possible_pieces()` from moves.h. -/
def allPieces : List Char := ['P', 'N', 'B', 'R', 'Q', 'K']

/-- `TerminationMarker` from moves.h. -/
inductive TerminationMarker where
  | MANUAL | WHITE_WON | BLAKC_WON | EVEN
deriving DecidableEq, Repr

/-- `Coordinates` from moves.h: both components optional. -/
structure Coordinates where
  x : Option Int := none
  y : Option Int := none
deriving DecidableEq, Repr

/-- `NextMove` from moves.h. -/
structure NextMove where
  piece : Char := Char.ofNat 0
  is_white_move : Bool := false
  capture : Bool := false
  check : Bool := false
  checkmate : Bool := false
  src : Coordinates := {}
  dst : Coordinates := {}
  promote_piece : Option Char := none
  orig_token : String := ""
deriving DecidableEq, Repr

/-- The `Moves` variant from moves.h. -/
inductive Moves where
  | kingCastling (is_white_move : Bool)
  | queenCastling (is_white_move : Bool)
  | nextMove (m : NextMove)
  | finish (marker : TerminationMarker)
  | ignore
deriving DecidableEq, Repr

end ChessReplay

namespace ChessReplay
namespace ChessBoard

/-- `ChessBoard::in_range`. -/
def in_range (i : Int) : Bool := 0 ≤ i && i ≤ 7

/-- `ChessBoard::is_free_cell`. -/
def is_free_cell (b : Board) (x y : Int) : Bool := (bget b x y).piece = '.'

/-- `ChessBoard::is_valid_dest`. -/
def is_valid_dest (b : Board) (x y : Int) (capture is_white_move : Bool) : Bool :=
  let dst_cell := bget b x y
  if capture then dst_cell.is_white = !is_white_move && dst_cell.piece ≠ 'K'
  else dst_cell.piece = '.'

/-- The eight compass directions of `ChessBoard::is_locked`, in array order. -/
def dirs : List (Int × Int) :=
  [(-1, 0), (-1, 1), (0, 1), (1, 1), (1, 0), (1, -1), (0, -1), (-1, -1)]

/-- First do-while of `is_locked`: step once, keep stepping while in range and
empty; returns the final ray position (out of range or on a piece).  The fuel
strictly dominates the board diameter, so it never runs out from an in-range
start. -/
def marchFree (b : Board) (d : Int × Int) : Nat → (Int × Int) → (Int × Int)
  | 0, p => p
  | fuel + 1, p =>
    let p' := (p.1 + d.1, p.2 + d.2)
    if in_range p'.1 && in_range p'.2 && is_free_cell b p'.1 p'.2 then
      marchFree b d fuel p'
    else p'

/-- Second do-while of `is_locked`: like `marchFree` but also stops upon
reaching `dst`. -/
def marchToDst (b : Board) (d : Int × Int) (dst : Int × Int) :
    Nat → (Int × Int) → (Int × Int)
  | 0, p => p
  | fuel + 1, p =>
    let p' := (p.1 + d.1, p.2 + d.2)
    if p' ≠ dst && in_range p'.1 && in_range p'.2 && is_free_cell b p'.1 p'.2 then
      marchToDst b d dst fuel p'
    else p'

/-- The `is_king_under_attack` lambda inside `is_locked`. -/
def is_king_under_attack (b : Board) (is_white_move : Bool) (direction : Nat)
    (ax ay : Int) : Bool :=
  let c := bget b ax ay
  if c.piece = '.' || c.is_white = is_white_move then false
  else if direction % 2 = 1 then c.piece = 'Q' || c.piece = 'B'
  else c.piece = 'Q' || c.piece = 'R'

/-- First phase of `is_locked`: scan directions 0..7 in order, breaking at the
first whose blocked-ray endpoint is the friendly king. -/
def findKingDir (b : Board) (src : Int × Int) (is_white_move : Bool) :
    Nat → Option (Nat × (Int × Int))
  | 0 => none
  | n + 1 =>
    let i := 8 - (n + 1)
    let e := marchFree b (dirs.getD i (0, 0)) 10 src
    if in_range e.1 && in_range e.2 &&
        (bget b e.1 e.2).piece = 'K' && (bget b e.1 e.2).is_white = is_white_move then
      some (i, e)
    else findKingDir b src is_white_move n

/-- `ChessBoard::is_locked` (pin detection).  The two `INTERNAL_ASSERT`s in
the capture branch become errors. -/
def is_locked (b : Board) (src dst : Int × Int) (capture is_white_move : Bool) :
    Except String Bool :=
  match findKingDir b src is_white_move 8 with
  | none => .ok false
  | some (idx, _king) =>
    let opposite_idx := (idx + 4) % 8
    let d := dirs.getD opposite_idx (0, 0)
    let e := marchToDst b d dst 10 src
    if in_range e.1 && in_range e.2 && (bget b e.1 e.2).piece ≠ '.' then
      if e = dst then do
        let c := bget b e.1 e.2
        iassert (c.is_white ≠ is_white_move) "is_locked: capture of friendly piece"
        iassert capture "is_locked: blocked dst without capture"
        let e2 := (e.1 + d.1, e.2 + d.2)
        if in_range e2.1 && in_range e2.2 then
          .ok (is_king_under_attack b is_white_move idx e2.1 e2.2)
        else .ok false
      else .ok (is_king_under_attack b is_white_move idx e.1 e.2)
    else .ok false

/-- Strictly-between integer coordinates, ascending, exclusive of both ends.
The rook loops of `can_move_rook` check exactly these squares for emptiness
(`all` makes the check direction-independent, as in the source). -/
def strictBetween (a c : Int) : List Int :=
  let lo := min a c
  let hi := max a c
  (List.range (hi - lo).toNat).filterMap fun k =>
    if 1 ≤ k ∧ (lo + k : Int) < hi then some (lo + (k : Int)) else none

/-- `ChessBoard::can_move_rook`: shared rank or file (not both), all strictly
intermediate squares free, and a valid destination. -/
def can_move_rook (b : Board) (src dst : Int × Int) (capture is_white_move : Bool) :
    Bool :=
  if src.1 = dst.1 && src.2 ≠ dst.2 then
    (strictBetween src.2 dst.2).all (fun y => is_free_cell b src.1 y) &&
      is_valid_dest b dst.1 dst.2 capture is_white_move
  else if src.2 = dst.2 && src.1 ≠ dst.1 then
    (strictBetween src.1 dst.1).all (fun x => is_free_cell b x src.2) &&
      is_valid_dest b dst.1 dst.2 capture is_white_move
  else false

/-- The strictly intermediate squares of the diagonal from `src` to `dst`
(assuming `|dx| = |dy|`), walked from `src` towards `dst` as in the four
loops of `can_move_bishop`. -/
def diagBetween (src dst : Int × Int) : List (Int × Int) :=
  let n := (dst.1 - src.1).natAbs
  let sx : Int := if dst.1 > src.1 then 1 else -1
  let sy : Int := if dst.2 > src.2 then 1 else -1
  (List.range n).filterMap fun k =>
    if 1 ≤ k then some (src.1 + sx * k, src.2 + sy * k) else none

/-- `ChessBoard::can_move_bishop`. -/
def can_move_bishop (b : Board) (src dst : Int × Int) (capture is_white_move : Bool) :
    Bool :=
  let dx := (dst.1 - src.1).natAbs
  let dy := (dst.2 - src.2).natAbs
  if 1 ≤ dx && 1 ≤ dy && dx = dy then
    (diagBetween src dst).all (fun p => is_free_cell b p.1 p.2) &&
      is_valid_dest b dst.1 dst.2 capture is_white_move
  else false

/-- `ChessBoard::can_move_queen`. -/
def can_move_queen (b : Board) (src dst : Int × Int) (capture is_white_move : Bool) :
    Bool :=
  can_move_rook b src dst capture is_white_move ||
    can_move_bishop b src dst capture is_white_move

/-- `ChessBoard::can_move_knight`. -/
def can_move_knight (b : Board) (src dst : Int × Int) (capture is_white_move : Bool) :
    Bool :=
  let dx := (dst.1 - src.1).natAbs
  let dy := (dst.2 - src.2).natAbs
  ((dx = 1 && dy = 2) || (dx = 2 && dy = 1)) &&
    is_valid_dest b dst.1 dst.2 capture is_white_move

/-- `ChessBoard::can_move_king`. -/
def can_move_king (b : Board) (src dst : Int × Int) (capture is_white_move : Bool) :
    Bool :=
  let dx := (src.1 - dst.1).natAbs
  let dy := (src.2 - dst.2).natAbs
  (dx ≠ 0 || dy ≠ 0) && dx ≤ 1 && dy ≤ 1 &&
    is_valid_dest b dst.1 dst.2 capture is_white_move

/-- `ChessBoard::can_move_pawn`.  Stateful: the two-square push sets the
destination `double_move` flag, and the en-passant branch removes the captured
pawn (its `INTERNAL_ASSERT`s become errors).  Returns the verdict together
with the possibly mutated board. -/
def can_move_pawn (b : Board) (src dst : Int × Int) (capture is_white_move : Bool) :
    Except String (Bool × Board) :=
  let dy := (dst.2 - src.2).natAbs
  let first_move := if is_white_move then src.1 = 6 else src.1 = 1
  let dx := if is_white_move then src.1 - dst.1 else dst.1 - src.1
  if capture then
    if dx = 1 && dy = 1 then
      if (bget b dst.1 dst.2).piece = '.' then do
        -- en passant: the pawn one file over on the source rank
        let cy := src.2 + (dst.2 - src.2)
        iassert (in_range cy) "can_move_pawn: en passant file out of range"
        let cc := bget b src.1 cy
        iassert (cc.piece = 'P') "can_move_pawn: en passant target is not a pawn"
        iassert (cc.is_white = !is_white_move) "can_move_pawn: en passant wrong color"
        iassert cc.double_move "can_move_pawn: en passant target lacks double_move"
        .ok (true, bset b src.1 cy { cc with piece := '.', double_move := false })
      else
        .ok (is_valid_dest b dst.1 dst.2 capture is_white_move, b)
    else .ok (false, b)
  else
    if dx = 2 then
      if first_move && dy = 0 then
        let step1 := src.1 + (if is_white_move then -1 else 1)
        if is_free_cell b step1 src.2 then
          let step2 := step1 + (if is_white_move then -1 else 1)
          if is_free_cell b step2 src.2 then
            .ok (true, bsetFlag b dst.1 dst.2 true)
          else .ok (false, b)
        else .ok (false, b)
      else .ok (false, b)
    else if dx = 1 then
      .ok (dy = 0 && is_valid_dest b dst.1 dst.2 capture is_white_move, b)
    else .ok (false, b)

/-- The per-piece dispatch of the legality switch inside `ChessBoard::apply`;
the `default: INTERNAL_ASSERT(false)` arm becomes an error. -/
def can_move_piece (piece : Char) (b : Board) (src dst : Int × Int)
    (capture is_white_move : Bool) : Except String (Bool × Board) :=
  if piece = 'P' then can_move_pawn b src dst capture is_white_move
  else if piece = 'R' then .ok (can_move_rook b src dst capture is_white_move, b)
  else if piece = 'Q' then .ok (can_move_queen b src dst capture is_white_move, b)
  else if piece = 'N' then .ok (can_move_knight b src dst capture is_white_move, b)
  else if piece = 'B' then .ok (can_move_bishop b src dst capture is_white_move, b)
  else if piece = 'K' then .ok (can_move_king b src dst capture is_white_move, b)
  else .error "apply: unknown piece"

/-- Source-candidate enumeration of `ChessBoard::apply`, in loop order. -/
def srcCandidates (b : Board) (mv : NextMove) : List (Int × Int) :=
  match mv.src.x, mv.src.y with
  | none, none =>
    (List.range 8).flatMap fun x =>
      (List.range 8).filterMap fun y =>
        let c := bget b x y
        if c.piece = mv.piece ∧ c.is_white = mv.is_white_move then
          some ((x : Int), (y : Int))
        else none
  | some x, none =>
    (List.range 8).filterMap fun y =>
      let c := bget b x y
      if c.piece = mv.piece ∧ c.is_white = mv.is_white_move then
        some (x, (y : Int))
      else none
  | none, some y =>
    (List.range 8).filterMap fun x =>
      let c := bget b x y
      if c.piece = mv.piece ∧ c.is_white = mv.is_white_move then
        some ((x : Int), y)
      else none
  | some x, some y => [(x, y)]

/-- `std::optional::value()`: throws when empty. -/
def optValue (o : Option Int) (msg : String) : Except String Int :=
  match o with
  | some v => .ok v
  | none => .error msg

/-- Destination-candidate enumeration of `ChessBoard::apply`, in loop order.
The `!dst.y` branch is dead (the engine asserts `dst.y` first) but is
mirrored faithfully. -/
def dstCandidates (b : Board) (mv : NextMove) : Except String (List (Int × Int)) :=
  match mv.dst.y with
  | none => do
    let x ← optValue mv.dst.x "dst.x.value() on empty optional"
    .ok ((List.range 8).filterMap fun y =>
      let c := bget b x y
      if c.piece = '.' ∨ mv.capture then some (x, (y : Int)) else none)
  | some y =>
    match mv.dst.x with
    | none =>
      .ok ((List.range 8).filterMap fun x =>
        let c := bget b x y
        if c.piece = '.' ∨ mv.capture then some ((x : Int), y) else none)
    | some x => .ok [(x, y)]

/-- The running state of the candidate-pair loop in `ChessBoard::apply`:
`matches` is the accumulated legal-pair count, `found` records the first
legal `(src, dst)` pair, `board` the (possibly mutated) board. -/
structure EvalState where
  /-- the `matches` counter (renamed: `matches` is reserved in Lean) -/
  matchCount : Nat
  found : Option ((Int × Int) × (Int × Int))
  board : Board
deriving DecidableEq

/-- One iteration of the candidate-pair loop of `ChessBoard::apply`: pin
check, per-piece legality test, match counting, and the first-match
`double_move` cleanup. -/
def evalStep (mv : NextMove) (st : EvalState) (p : (Int × Int) × (Int × Int)) :
    Except String EvalState := do
  let locked ← is_locked st.board p.1 p.2 mv.capture mv.is_white_move
  if locked then .ok st
  else do
    let rb ← can_move_piece mv.piece st.board p.1 p.2 mv.capture mv.is_white_move
    let matches1 := st.matchCount + (if rb.1 then 1 else 0)
    if st.found = none ∧ matches1 = 1 then
      if mv.piece = 'P' then
        let src_cell := bget rb.2 p.1.1 p.1.2
        if src_cell.double_move then
          .ok ⟨matches1, some p, bsetFlag rb.2 p.1.1 p.1.2 false⟩
        else .ok ⟨matches1, some p, rb.2⟩
      else if mv.capture then
        let dst_cell := bget rb.2 p.2.1 p.2.2
        if dst_cell.double_move then do
          iassert (dst_cell.piece = 'P') "apply: double_move flag on a non-pawn"
          .ok ⟨matches1, some p, bsetFlag rb.2 p.2.1 p.2.2 false⟩
        else .ok ⟨matches1, some p, rb.2⟩
      else .ok ⟨matches1, some p, rb.2⟩
    else .ok ⟨matches1, st.found, rb.2⟩

/-- The full candidate-pair loop of `ChessBoard::apply`, folding `evalStep`
over every `(src, dst)` pair in order. -/
def evalPairs (mv : NextMove) : List ((Int × Int) × (Int × Int)) → EvalState →
    Except String EvalState
  | [], st => .ok st
  | p :: ps, st => do evalPairs mv ps (← evalStep mv st p)

/-- The `(src, dst)` candidate product in the source loop order
(sources outer, destinations inner). -/
def pairList (srcs dsts : List (Int × Int)) : List ((Int × Int) × (Int × Int)) :=
  srcs.flatMap fun s => dsts.map fun d => (s, d)

/-- The `NextMove` branch of `ChessBoard::apply`: candidate enumeration, the
exactly-one-match requirement, and the final board writes. -/
def applyNext (mv : NextMove) (b : Board) : Except String Board := do
  iassert (mv.piece ≠ Char.ofNat 0) "apply: null piece"
  iassert mv.dst.y.isSome "apply: dst.y missing"
  let scands := srcCandidates b mv
  iassert (!scands.isEmpty) "apply: no src candidates"
  let dcands ← dstCandidates b mv
  iassert (!dcands.isEmpty) "apply: no dst candidates"
  let st ← evalPairs mv (pairList scands dcands) ⟨0, none, b⟩
  iassert (st.matchCount = 1) "apply: zero or multiple legal resolutions"
  match st.found with
  | none => .error "apply: no match recorded"
  | some pair =>
    let fs : Int × Int := pair.1
    let fd : Int × Int := pair.2
    let b1 := bsetPiece st.board fd.1 fd.2
      (match mv.promote_piece with | some p => p | none => mv.piece)
    let b2 := bsetPiece b1 fs.1 fs.2 '.'
    let b3 := bsetWhite b2 fd.1 fd.2 mv.is_white_move
    .ok b3

/-- The `QueenCastling` branch of `ChessBoard::apply`: asserts c- and d-file
back-rank squares free, then copies king to column 2 and rook to column 3. -/
def applyQueenCastling (is_white : Bool) (b : Board) : Except String Board := do
  let row : Int := if is_white then 7 else 0
  iassert (is_free_cell b row 2) "castling: c-file square occupied"
  iassert (is_free_cell b row 3) "castling: d-file square occupied"
  let b1 := bset b row 2 (bget b row 4)
  let b2 := bsetPiece b1 row 4 '.'
  let b3 := bset b2 row 3 (bget b2 row 0)
  let b4 := bsetPiece b3 row 0 '.'
  .ok b4

/-- The `KingCastling` branch of `ChessBoard::apply`: asserts f- and g-file
back-rank squares free, then copies king to column 6 and rook to column 5. -/
def applyKingCastling (is_white : Bool) (b : Board) : Except String Board := do
  let row : Int := if is_white then 7 else 0
  iassert (is_free_cell b row 6) "castling: g-file square occupied"
  iassert (is_free_cell b row 5) "castling: f-file square occupied"
  let b1 := bset b row 6 (bget b row 4)
  let b2 := bsetPiece b1 row 4 '.'
  let b3 := bset b2 row 5 (bget b2 row 7)
  let b4 := bsetPiece b3 row 7 '.'
  .ok b4

/-- `ChessBoard::apply`: dispatch over the `Moves` variant (`Ignore` and
`Finish` hit no-op visitors). -/
def apply (m : Moves) (b : Board) : Except String Board :=
  match m with
  | .nextMove mv => applyNext mv b
  | .queenCastling w => applyQueenCastling w b
  | .kingCastling w => applyKingCastling w b
  | .ignore => .ok b
  | .finish _ => .ok b

end ChessBoard
end ChessReplay

namespace ChessReplay

/-- Dereference the current reverse-iterator position; dereferencing past the
end (UB in the C++) is modelled as an error. -/
def curChar (rc : List Char) : Except String Char :=
  match rc with
  | [] => .error "MoveFactory: dereference past rend"
  | c :: _ => .ok c

/-- The `needs_one_char` lambda of `MoveFactory`. -/
def needsOneChar (rc : List Char) : Except String Unit :=
  match rc with
  | [] => .error "bad symbol val to pare next move"
  | _ :: _ => .ok ()

/-- Is `c` a rank digit 1..8? -/
def isRankChar (c : Char) : Bool := '1' ≤ c && c ≤ '8'

/-- Is `c` a file letter a..h? -/
def isFileChar (c : Char) : Bool := 'a' ≤ c && c ≤ 'h'

/-- The `NextMove` construction arm of `MoveFactory::operator()`, scanning the
reversed character list `rc` exactly as the C++ scans with a reverse
iterator. -/
def parseNextMove (rc0 : List Char) (white_turn : Bool) (orig : String) :
    Except String NextMove := do
  let nm0 : NextMove := { is_white_move := white_turn, orig_token := orig }
  -- up to two suffix flag characters
  needsOneChar rc0
  let (rc1, nm1) :=
    match rc0 with
    | c :: rest =>
      if c = '#' then (rest, { nm0 with checkmate := true })
      else if c = '+' then (rest, { nm0 with check := true })
      else if c = ':' then (rest, { nm0 with capture := true })
      else (rc0, nm0)
    | [] => (rc0, nm0)
  let (rc2, nm2) ←
    if rc1 = rc0 then .ok (rc1, nm1)  -- first iteration broke out of the loop
    else do
      needsOneChar rc1
      match rc1 with
      | c :: rest =>
        if c = '#' then .ok (rest, { nm1 with checkmate := true })
        else if c = '+' then .ok (rest, { nm1 with check := true })
        else if c = ':' then .ok (rest, { nm1 with capture := true })
        else .ok (rc1, nm1)
      | [] => .ok (rc1, nm1)
  -- optional ')' closing the alternate promotion form
  let c2 ← curChar rc2
  let rc3 ←
    if c2 = ')' then do
      needsOneChar rc2.tail
      .ok rc2.tail
    else .ok rc2
  -- promotion piece and its optional separator
  let c3 ← curChar rc3
  let (rc4, nm4) ←
    if allPieces.contains c3 then do
      let nmp := { nm2 with promote_piece := some c3 }
      needsOneChar rc3.tail
      let c4 ← curChar rc3.tail
      if c4 = '=' ∨ c4 = '/' ∨ c4 = '(' then .ok (rc3.tail.tail, nmp)
      else .ok (rc3.tail, nmp)
    else .ok (rc3, nm2)
  -- destination: optional rank digit then optional file letter
  let (rc5, nm5) :=
    match rc4 with
    | c :: rest =>
      if isRankChar c then (rest, { nm4 with dst := { nm4.dst with x := some (r c) } })
      else (rc4, nm4)
    | [] => (rc4, nm4)
  let (rc6, nm6) :=
    match rc5 with
    | c :: rest =>
      if isFileChar c then (rest, { nm5 with dst := { nm5.dst with y := some (f c) } })
      else (rc5, nm5)
    | [] => (rc5, nm5)
  if rc6 = [] then
    -- pawn move with nothing else given
    .ok { nm6 with piece := 'P' }
  else do
    -- capture marker
    let c6 ← curChar rc6
    let (rc7, nm7) :=
      if c6 = 'x' ∨ c6 = ':' then (rc6.tail, { nm6 with capture := true })
      else (rc6, nm6)
    -- source hint: rank digit (unguarded dereference in the C++) then file
    let c7 ← curChar rc7
    let (rc8, nm8) :=
      if isRankChar c7 then (rc7.tail, { nm7 with src := { nm7.src with x := some (r c7) } })
      else (rc7, nm7)
    let (rc9, nm9) :=
      match rc8 with
      | c :: rest =>
        if isFileChar c then (rest, { nm8 with src := { nm8.src with y := some (f c) } })
        else (rc8, nm8)
      | [] => (rc8, nm8)
    -- explicit piece letter, else implicit pawn
    match rc9 with
    | c :: rest =>
      if allPieces.contains c then
        if rest = [] then .ok { nm9 with piece := c }
        else .error "was NOT expecting a piece - extra symbols in next move"
      else .error "was expecting a piece - bad symbol in next move"
    | [] => .ok { nm9 with piece := 'P' }

/-- `MoveFactory::operator()`: classify the symbol text and either produce a
special descriptor or parse a `NextMove` right-to-left. -/
def MoveFactory (val : String) (white_turn : Bool) : Except String Moves :=
  if val = "e" ∨ val = "p" then .ok .ignore
  else if val = "O-O" then .ok (.kingCastling white_turn)
  else if val = "O-O-O" then .ok (.queenCastling white_turn)
  else if val = "1-0" then .ok (.finish .WHITE_WON)
  else if val = "0-1" then .ok (.finish .BLAKC_WON)
  else if val = "1/2-1/2" then .ok (.finish .EVEN)
  else (parseNextMove val.data.reverse white_turn val).map .nextMove

end ChessReplay

namespace ChessReplay

/-- The `State` enum of parser.h. -/
inductive PState where
  | Init
  | ParsingLeftBracket
  | ParsingHeaderName
  | ParsingHeaderValue
  | ParsingRightBracket
  | ParsingMove
  | ParsingNumberIndication
  | ParsingPeriod
  | ParsingLeftParenthesis
  | ParsingRightParenthesis
  | ParsingComment
  | Finished
deriving DecidableEq, Repr

/-- The kinds of lexical atoms keyed by `std::type_index` in the source.
`NumericAnnotationToken` is unreachable (the scanner never constructs it) and
is omitted. -/
inductive TKind where
  | string | period | star | lbracket | rbracket | lparen | rparen
  | symbol | integer | braceComment | lineComment | escapeLine | glyph
deriving DecidableEq, Repr

/-- The terminated lexical atoms the scanner hands to the parser
(the `Token` variant of tokens.h, minus the never-emitted members). -/
inductive Tok where
  | string (v : String)
  | period
  | star
  | lbracket
  | rbracket
  | lparen
  | rparen
  | symbol (v : String)
  | integer (v : String)
  | braceComment
  | lineComment
  | escapeLine
  | glyph
deriving DecidableEq, Repr

/-- The atom kind of a token (`token_type::Event`). -/
def Tok.kind : Tok → TKind
  | .string _ => .string
  | .period => .period
  | .star => .star
  | .lbracket => .lbracket
  | .rbracket => .rbracket
  | .lparen => .lparen
  | .rparen => .rparen
  | .symbol _ => .symbol
  | .integer _ => .integer
  | .braceComment => .braceComment
  | .lineComment => .lineComment
  | .escapeLine => .escapeLine
  | .glyph => .glyph

/-- The `value_` member, for the token kinds that have one. -/
def Tok.value : Tok → Option String
  | .string v => some v
  | .symbol v => some v
  | .integer v => some v
  | _ => none

/-- The transition table built by the `PGNParser` constructor: for each state
the outgoing `(event, target)` transitions.  `Finished` has no entry in the
`automaton_` map, so its defaulted transition list is empty. -/
def transList : PState → List (TKind × PState)
  | .Init =>
    [(.lbracket, .ParsingLeftBracket), (.integer, .ParsingNumberIndication),
     (.symbol, .ParsingMove), (.star, .Finished)]
  | .ParsingLeftBracket => [(.symbol, .ParsingHeaderName)]
  | .ParsingHeaderName => [(.string, .ParsingHeaderValue), (.star, .Finished)]
  | .ParsingHeaderValue => [(.rbracket, .ParsingRightBracket), (.star, .Finished)]
  | .ParsingRightBracket =>
    [(.lbracket, .ParsingLeftBracket), (.integer, .ParsingNumberIndication),
     (.symbol, .ParsingMove), (.star, .Finished)]
  | .ParsingNumberIndication =>
    [(.period, .ParsingPeriod), (.symbol, .ParsingMove), (.star, .Finished)]
  | .ParsingPeriod =>
    [(.period, .ParsingPeriod), (.symbol, .ParsingMove), (.star, .Finished)]
  | .ParsingMove =>
    [(.symbol, .ParsingMove), (.integer, .ParsingNumberIndication), (.star, .Finished)]
  | .ParsingLeftParenthesis => [(.star, .Finished)]
  | .ParsingRightParenthesis => [(.star, .Finished)]
  | .ParsingComment => [(.star, .Finished)]
  | .Finished => []

/-- Association-list lookup with propositional key equality. -/
def lookupT (k : TKind) : List (TKind × PState) → Option PState
  | [] => none
  | e :: es => if e.1 = k then some e.2 else lookupT k es

/-- `transitions.find(event)` on the modelled table. -/
def transFind (s : PState) (k : TKind) : Option PState :=
  lookupT k (transList s)

/-- The mutable state of `PGNParser`: current automaton state, parenthesis
depth counter, and the white-turn flag. -/
structure ParserState where
  state : PState := .Init
  depth : Int := 0
  white_turn : Bool := false
deriving DecidableEq, Repr

/-- The freshly constructed `PGNParser`. -/
def pgnInit : ParserState := {}

/-- Does the token kind get skipped before the automaton sees it? -/
def skipKind (k : TKind) : Bool :=
  k = .braceComment || k = .lineComment || k = .escapeLine || k = .glyph

/-- `PGNParser::consume_token`: comment-class atoms are dropped, parentheses
adjust the depth counter out-of-band, and every other atom drives the
automaton.  Entering `ParsingMove` at depth zero toggles the white-turn flag
and runs `MoveFactory`; entering `Finished` at depth zero emits
`Finish{MANUAL}`. -/
def consume (ps : ParserState) (t : Tok) :
    Except String (ParserState × Option Moves) :=
  if skipKind t.kind then .ok (ps, none)
  else if t.kind = .lparen then .ok ({ ps with depth := ps.depth + 1 }, none)
  else if t.kind = .rparen then .ok ({ ps with depth := ps.depth - 1 }, none)
  else
    (iassert (ps.depth ≥ 0) "consume_token: negative parenthesis count").bind fun _ =>
    (iassert (!(transList ps.state).isEmpty) "consume_token: empty transitions").bind fun _ =>
    match transFind ps.state t.kind with
    | none =>
      if ps.state = .ParsingMove ∧ t.kind = .period then .ok (ps, none)
      else .error "event cannot transition to any known state"
    | some s' =>
      if s' = .Finished then
        .ok ({ ps with state := .Finished },
          if ps.depth > 0 then none else some (.finish .MANUAL))
      else if s' = .ParsingMove then
        match t.value with
        | none => .ok ({ ps with state := s' }, none)
        | some v =>
          if ps.depth > 0 then .ok ({ ps with state := s' }, none)
          else
            (MoveFactory v (!ps.white_turn)).bind fun m =>
              .ok (⟨s', ps.depth, !ps.white_turn⟩, some m)
      else .ok ({ ps with state := s' }, none)

/-- Feed a list of tokens through `consume_token`, collecting every emitted
move descriptor in order. -/
def consumeList (ps : ParserState) : List Tok →
    Except String (ParserState × List Moves)
  | [] => .ok (ps, [])
  | t :: ts =>
    (consume ps t).bind fun pm =>
      (consumeList pm.1 ts).bind fun res =>
        .ok (res.1, (match pm.2 with | some m => [m] | none => []) ++ res.2)

/-- The main replay loop of main.cpp: consume a token, break before applying
when a `Finish` descriptor is produced, otherwise apply the descriptor to the
board.  Returns the final parser state, board, and whether the loop broke. -/
def runLoop (ps : ParserState) (b : Board) : List Tok →
    Except String (ParserState × Board × Bool)
  | [] => .ok (ps, b, false)
  | t :: ts =>
    (consume ps t).bind fun pm =>
      match pm.2 with
      | some (.finish _) => .ok (pm.1, b, true)
      | some m =>
        (ChessBoard.apply m b).bind fun b' => runLoop pm.1 b' ts
      | none => runLoop pm.1 b ts

end ChessReplay

namespace ChessReplay

/-- The `AcceptResult` enum of tokens.h. -/
inductive AcceptResult where
  | CONSUMED
  | TERMINATED_CONSUMED
  | TERMINATED_NONCONSUMED
  | INVALID
deriving DecidableEq, Repr

/-- `std::isprint` in the C locale: codes 0x20..0x7e. -/
def isPrintC (c : Char) : Bool := 0x20 ≤ c.toNat && c.toNat ≤ 0x7e

/-- `std::isdigit`. -/
def isDigitC (c : Char) : Bool := '0' ≤ c && c ≤ '9'

/-- `std::isalpha` in the C locale. -/
def isAlphaC (c : Char) : Bool :=
  ('a' ≤ c && c ≤ 'z') || ('A' ≤ c && c ≤ 'Z')

/-- `SymbolToken::is_symbol_char`. -/
def is_symbol_char (c : Char) : Bool :=
  isDigitC c || isAlphaC c || c = ':' || c = '-' || c = '_' || c = '+' ||
    c = '=' || c = '#' || c = '/'

/-- The in-progress token held in `current_token_` while scanning, with the
per-token automaton state (`value_`, `number_only_`, `first`). -/
inductive ScanTok where
  | string (v : List Char)
  | period
  | star
  | lbrace
  | rbrace
  | lparen
  | rparen
  | braceComment
  | lineComment
  | escapeLine
  | glyph (first : Bool)
  | symbol (v : List Char) (number_only : Bool)
deriving DecidableEq, Repr

/-- `StringToken::accept` on the accumulated value (list of chars, in
order). -/
def stringAccept (v : List Char) (c : Char) : AcceptResult × List Char :=
  if c = '"' then
    if v = [] then (.CONSUMED, v)
    else if v.getLast? = some '\\' then (.CONSUMED, v.dropLast ++ [c])
    else (.TERMINATED_CONSUMED, v)
  else if c = '\\' then
    if v = [] ∨ v.getLast? = some '\\' then (.CONSUMED, v ++ [c])
    else (.CONSUMED, v)
  else if isPrintC c then
    if v ≠ [] ∧ v.getLast? = some '\\' then (.INVALID, v)
    else (.CONSUMED, v ++ [c])
  else (.INVALID, v)

/-- The `accept` step of every token automaton: result plus updated token
state. -/
def scanAccept (t : ScanTok) (c : Char) : AcceptResult × ScanTok :=
  match t with
  | .string v =>
    let rv := stringAccept v c
    (rv.1, .string rv.2)
  | .period =>
    if c = '.' then (.TERMINATED_CONSUMED, t) else (.TERMINATED_NONCONSUMED, t)
  | .star => (.TERMINATED_CONSUMED, t)
  | .lbrace => (.TERMINATED_CONSUMED, t)
  | .rbrace => (.TERMINATED_CONSUMED, t)
  | .lparen => (.TERMINATED_CONSUMED, t)
  | .rparen => (.TERMINATED_CONSUMED, t)
  | .braceComment =>
    if c = '}' then (.TERMINATED_CONSUMED, t) else (.CONSUMED, t)
  | .lineComment =>
    if c = '\n' then (.TERMINATED_CONSUMED, t) else (.CONSUMED, t)
  | .escapeLine =>
    if c = '\n' then (.TERMINATED_CONSUMED, t) else (.CONSUMED, t)
  | .glyph first =>
    if isDigitC c || (first && c = '$') then (.CONSUMED, .glyph false)
    else (.TERMINATED_NONCONSUMED, t)
  | .symbol v number_only =>
    if is_symbol_char c then
      (.CONSUMED, .symbol (v ++ [c]) (number_only && isDigitC c))
    else (.TERMINATED_NONCONSUMED, t)

/-- The first-character dispatch table of `scan_token`. -/
def dispatch (c : Char) : Except String ScanTok :=
  if c = '[' then .ok .lbrace
  else if c = ']' then .ok .rbrace
  else if c = '(' then .ok .lparen
  else if c = ')' then .ok .rparen
  else if c = '"' then .ok (.string [])
  else if c = '.' then .ok .period
  else if c = '*' then .ok .star
  else if c = '{' then .ok .braceComment
  else if c = '$' then .ok (.glyph true)
  else if c = ';' then .ok .lineComment
  else if c = '%' then .ok .escapeLine
  else if isDigitC c || isAlphaC c then .ok (.symbol [] true)
  else .error "bad format. expecing digit / character"

/-- Emission of a terminated token, including the `SymbolToken` to
`IntegerToken` reclassification on non-consumed termination. -/
def emitTok (t : ScanTok) (reclassify : Bool) : Tok :=
  match t with
  | .string v => .string (String.mk v)
  | .period => .period
  | .star => .star
  | .lbrace => .lbracket
  | .rbrace => .rbracket
  | .lparen => .lparen
  | .rparen => .rparen
  | .braceComment => .braceComment
  | .lineComment => .lineComment
  | .escapeLine => .escapeLine
  | .glyph _ => .glyph
  | .symbol v number_only =>
    if reclassify && number_only then .integer (String.mk v)
    else .symbol (String.mk v)

/-- `TokenScanner::Iterator::is_token_separator`. -/
def is_token_separator (c : Char) : Bool := c = ' ' || c = '\n' || c = '\t'

/-- The inner loop of `scan_token` after a token class has been dispatched:
feed characters to the accept automaton until termination.  Returns the
emitted token with the pending character and remaining input, or `none` when
the input ends with the atom still open (the atom is silently dropped). -/
def scanBody (t : ScanTok) : List Char → Except String (Option (Tok × Option Char × List Char))
  | [] => .ok none
  | c :: cs =>
    match scanAccept t c with
    | (.INVALID, _) => .error "got unexpected char"
    | (.TERMINATED_CONSUMED, t') => .ok (some (emitTok t' false, none, cs))
    | (.TERMINATED_NONCONSUMED, t') => .ok (some (emitTok t' true, some c, cs))
    | (.CONSUMED, t') => scanBody t' cs

/-- Dispatch the first character of an atom and feed it to the fresh
automaton, then run `scanBody` on the rest. -/
def scanStart (c : Char) (rest : List Char) :
    Except String (Option (Tok × Option Char × List Char)) :=
  (dispatch c).bind fun t =>
    match scanAccept t c with
    | (.INVALID, _) => .error "got unexpected char"
    | (.TERMINATED_CONSUMED, t') => .ok (some (emitTok t' false, none, rest))
    | (.TERMINATED_NONCONSUMED, t') => .ok (some (emitTok t' true, some c, rest))
    | (.CONSUMED, t') => scanBody t' rest

/-- Skip leading separators, then scan one atom from the input. -/
def scanFrom : List Char → Except String (Option (Tok × Option Char × List Char))
  | [] => .ok none
  | c :: cs => if is_token_separator c then scanFrom cs else scanStart c cs

/-- `scan_token`: handle the re-tried character left by a previous
non-consumed termination (`repeat_`), then scan one atom. -/
def scanToken (pending : Option Char) (input : List Char) :
    Except String (Option (Tok × Option Char × List Char)) :=
  match pending with
  | some c =>
    if is_token_separator c then scanFrom input
    else scanStart c input
  | none => scanFrom input

/-- Iterate `scanToken` to the end of input, collecting the emitted tokens
(fuelled; the fuel in `tokenize` always suffices because every emitted token
consumes at least one unit of input). -/
def tokenizeGo (fuel : Nat) (pending : Option Char) (input : List Char) :
    Except String (List Tok) :=
  match fuel with
  | 0 => .error "tokenize: out of fuel"
  | fuel + 1 =>
    (scanToken pending input).bind fun res =>
      match res with
      | none => .ok []
      | some (t, pending', rest) =>
        (tokenizeGo fuel pending' rest).bind fun ts => .ok (t :: ts)

/-- The token sequence of an input text, as produced by iterating the
scanner. -/
def tokenize (s : String) : Except String (List Tok) :=
  tokenizeGo (2 * s.data.length + 2) none s.data

/-- End-to-end replay of main.cpp: scan, parse, and apply every move of the
input text to the starting position, stopping at a `Finish` descriptor. -/
def replayPGN (s : String) : Except String Board :=
  (tokenize s).bind fun ts =>
    (runLoop pgnInit ChessReplay.initBoard ts).bind fun res => .ok res.2.1

end ChessReplay

namespace ChessReplay

instance : DecidableEq (Except String Board) := fun a b =>
  match a, b with
  | .ok x, .ok y =>
    if h : x = y then isTrue (by rw [h]) else isFalse (fun hc => by cases hc; exact h rfl)
  | .ok _, .error _ => isFalse (fun hc => by cases hc)
  | .error _, .ok _ => isFalse (fun hc => by cases hc)
  | .error e1, .error e2 =>
    if h : e1 = e2 then isTrue (by rw [h]) else isFalse (fun hc => by cases hc; exact h rfl)

/-- Interpret a SAN symbol for the given side and apply it to a board, the way
the main loop feeds `MoveFactory` output into `ChessBoard::apply` (also the
shape of the board unit tests). -/
def applySAN (san : String) (white_turn : Bool) (b : Board) : Except String Board :=
  (MoveFactory san white_turn).bind fun m => ChessBoard.apply m b

/-- The claimed `double_move` invariant: every flagged cell holds a pawn, on
row 4 for white or row 3 for black would be the full claim; this is the part
that survives on the code (see the C2 theorems): pawn on row 3 or row 4. -/
def DMInv (b : Board) : Prop :=
  ∀ i j : Fin 8, (b i j).double_move = true →
    (b i j).piece = 'P' ∧ (i.val = 3 ∨ i.val = 4)

/-- Side condition for the C2 preservation theorem: the descriptor carries no
promotion (well-formed PGN promotes only on the back ranks, never on the
double-push ranks). -/
def noPromotion : Moves → Prop
  | .nextMove nm => nm.promote_piece = none
  | _ => True

/-- Side condition for the C2 preservation theorem: a fully specified source
hint names a square that actually holds the moving piece (the engine trusts
fully disambiguated SAN and does not re-check it). -/
def srcHintOK : Moves → Board → Prop
  | .nextMove nm, b =>
    ∀ x y, nm.src.x = some x → nm.src.y = some y → (bget b x y).piece = nm.piece
  | _, _ => True

/-- Induction invariant for the candidate-pair fold of `ChessBoard::apply`
(`evalPairs`), relative to the move `mv` and the pre-move board `b0`. -/
structure FoldInv (mv : NextMove) (b0 : Board) (st : ChessBoard.EvalState) : Prop where
  flag_ok : ∀ x y : Int, (bget st.board x y).double_move = true →
    (x = 3 ∨ x = 4) ∧
      ((bget st.board x y).piece = 'P' ∨
        ((bget st.board x y).piece = '.' ∧ mv.piece = 'P' ∧
          (2 ≤ st.matchCount ∨ ∃ fs, st.found = some (fs, (x, y)))))
  found_matches : st.found = none → st.matchCount = 0
  found_pos : ∀ p, st.found = some p → 1 ≤ st.matchCount
  src_clear : mv.piece = 'P' → ∀ fs fd, st.found = some (fs, fd) →
    2 ≤ st.matchCount ∨ (bget st.board fs.1 fs.2).double_move = false
  pieces_stable : mv.piece ≠ 'P' → ∀ x y : Int,
    (bget st.board x y).piece = (bget b0 x y).piece ∧
      ((bget st.board x y).double_move = true → (bget b0 x y).double_move = true)
  dst_clear : mv.piece ≠ 'P' → mv.capture = true → ∀ fs fd, st.found = some (fs, fd) →
    (bget st.board fd.1 fd.2).double_move = false
  dst_was_empty : mv.piece ≠ 'P' → mv.capture = false → ∀ fs fd, st.found = some (fs, fd) →
    (bget b0 fd.1 fd.2).piece = '.'
  found_src : ∀ fs fd, st.found = some (fs, fd) → (bget b0 fs.1 fs.2).piece = mv.piece

/-- Paren-depth contribution of a token, as tracked out-of-band by
`consume_token`. -/
def tokDepth : Tok → Int
  | .lparen => 1
  | .rparen => -1
  | _ => 0

/-- Net paren-depth change over a token list. -/
def netDepth (ts : List Tok) : Int := (ts.map tokDepth).sum

/-- The `1. e4` descriptor. -/
def e4mv : NextMove :=
  { piece := 'P', is_white_move := true, dst := ⟨some 4, some 4⟩, orig_token := "e4" }

/-- Board after `1. e4` (extraction for witnesses). -/
def c2wBoard : Board :=
  match ChessBoard.apply (.nextMove e4mv) initBoard with
  | .ok b => b
  | .error _ => clearedBoard

/-- Board after `1. e4 d5` of the C2 counterexample scenario. -/
def c2scen1 : Except String Board :=
  (applySAN "e4" true initBoard).bind (applySAN "d5" false)

/-- Board after `1. e4 d5 2. exd5` of the C2 counterexample scenario. -/
def c2scen2 : Except String Board := c2scen1.bind (applySAN "exd5" true)

/-- C1 witness move: fully hinted white pawn push e2-e4. -/
def c1wMv : NextMove :=
  { piece := 'P', is_white_move := true, src := ⟨some 6, some 4⟩,
    dst := ⟨some 4, some 4⟩, orig_token := "e4" }

/-- C1 witness board: a lone white pawn on e2. -/
def c1wBoard : Board := bset clearedBoard 6 4 ⟨true, 'P', false⟩

/-- C1 witness evaluation state (extraction of the candidate-pair fold). -/
def c1wSt : ChessBoard.EvalState :=
  match ChessBoard.evalPairs c1wMv
      (ChessBoard.pairList (ChessBoard.srcCandidates c1wBoard c1wMv) [(4, 4)])
      ⟨0, none, c1wBoard⟩ with
  | .ok st => st
  | .error _ => ⟨0, none, clearedBoard⟩

/-- C3 witness: tokens before the RAV (`1. e4`). -/
def c3pre : List Tok := [.integer "1", .period, .symbol "e4"]

/-- C3 witness: tokens inside the RAV (`1. d4 d5`). -/
def c3body : List Tok := [.integer "1", .period, .symbol "d4", .symbol "d5"]

/-- C3 witness: tokens after the RAV (`e5` and a terminator). -/
def c3rest : List Tok := [.symbol "e5", .star]

/-- C3 witness: board reached after the pre-RAV tokens (extraction). -/
def c3preBoard : Board :=
  match runLoop pgnInit initBoard c3pre with
  | .ok res => res.2.1
  | .error _ => clearedBoard

/-- The scenario board of the C5 en-passant test: otherwise cleared, black
pawn at (1,1), white pawn at (3,2). -/
def c5board : Board :=
  bset (bset clearedBoard 1 1 ⟨false, 'P', false⟩) 3 2 ⟨true, 'P', false⟩

/-- Board after `b5` then `cxb6` in the C5 scenario. -/
def c5result : Except String Board :=
  (applySAN "b5" false c5board).bind (applySAN "cxb6" true)

/-- Board after `b5` alone in the C5 scenario (extraction for the witness). -/
def c5midBoard : Board :=
  match applySAN "b5" false c5board with
  | .ok b => b
  | .error _ => clearedBoard

/-- The cell update performed by the en-passant branch of `can_move_pawn` on
the captured pawn. -/
def epRemove (b : Board) (x y : Int) : Board :=
  bset b x y { bget b x y with piece := '.', double_move := false }

/-- C7 counterexample board: white king e1, white rook a1, and a white knight
still on b1 (column 1, an intermediate square the claim says must be
checked). -/
def c7cexBoard : Board :=
  bset (bset (bset clearedBoard 7 4 ⟨true, 'K', false⟩) 7 0 ⟨true, 'R', false⟩)
    7 1 ⟨true, 'N', false⟩

/-- C7 witness board: white king e1 and white rook a1 alone. -/
def c7wBoard : Board :=
  bset (bset clearedBoard 7 4 ⟨true, 'K', false⟩) 7 0 ⟨true, 'R', false⟩

/-- Board after the C7 witness castling (extraction). -/
def c7wRes : Board :=
  match ChessBoard.applyQueenCastling true c7wBoard with
  | .ok b => b
  | .error _ => clearedBoard

/-- Decidable check of the C5 scenario outcome: after `b5` then `cxb6` the
white pawn sits at (2,1), both source squares are empty, and no cell carries
a `double_move` flag. -/
def c5check : Bool :=
  match c5result with
  | .ok b =>
    decide (bget b 2 1 = ⟨true, 'P', false⟩) &&
      decide ((bget b 1 1).piece = '.') &&
      decide ((bget b 3 2).piece = '.') &&
      decide (∀ i j : Fin 8, (b i j).double_move = false)
  | .error _ => false

/-- Decidable check: after `1. e4 d5` both (4,4) and (3,3) carry the
`double_move` flag. -/
def c2check1 : Bool :=
  match c2scen1 with
  | .ok b => (bget b 4 4).double_move && (bget b 3 3).double_move
  | .error _ => false

/-- Decidable check: after `1. e4 d5 2. exd5` the cell (3,3) -- rank 5 --
holds a white pawn whose `double_move` flag is still set. -/
def c2check2 : Bool :=
  match c2scen2 with
  | .ok b => decide (bget b 3 3 = ⟨true, 'P', true⟩)
  | .error _ => false

end ChessReplay

namespace ChessReplay

theorem bget_eq_of_mem (b : Board) (x y : Int) (hx : 0 ≤ x ∧ x < 8)
    (hy : 0 ≤ y ∧ y < 8) :
    bget b x y = b ⟨x.toNat, by omega⟩ ⟨y.toNat, by omega⟩ := by
  simp [bget, hx, hy]

theorem bget_bset_same (b : Board) (x y : Int) (c : Cell)
    (hx : 0 ≤ x ∧ x < 8) (hy : 0 ≤ y ∧ y < 8) :
    bget (bset b x y c) x y = c := by
  simp only [bget, bset, hx, hy, and_self, dif_pos]
  have hx' : ((⟨x.toNat, by omega⟩ : Fin 8) : Int) = x := by simp; omega
  have hy' : ((⟨y.toNat, by omega⟩ : Fin 8) : Int) = y := by simp; omega
  simp [hx', hy']

theorem bget_bset_ne (b : Board) (x y : Int) (c : Cell) (x' y' : Int)
    (h : x' ≠ x ∨ y' ≠ y) :
    bget (bset b x y c) x' y' = bget b x' y' := by
  by_cases hx : 0 ≤ x' ∧ x' < 8
  · by_cases hy : 0 ≤ y' ∧ y' < 8
    · simp only [bget, bset, hx, hy, and_self, dif_pos]
      have hx' : ((⟨x'.toNat, by omega⟩ : Fin 8) : Int) = x' := by simp; omega
      have hy' : ((⟨y'.toNat, by omega⟩ : Fin 8) : Int) = y' := by simp; omega
      rw [if_neg]
      rw [hx', hy']
      tauto
    · simp [bget, hy]
  · simp [bget, hx]

theorem bget_oob (b : Board) (x y : Int) (h : ¬(0 ≤ x ∧ x < 8 ∧ 0 ≤ y ∧ y < 8)) :
    bget b x y = emptyCell := by
  by_cases hx : 0 ≤ x ∧ x < 8
  · by_cases hy : 0 ≤ y ∧ y < 8
    · exact absurd ⟨hx.1, hx.2, hy.1, hy.2⟩ h
    · simp [bget, hy]
  · simp [bget, hx]

theorem bget_bsetPiece_ne (b : Board) (x y : Int) (p : Char) (x' y' : Int)
    (h : x' ≠ x ∨ y' ≠ y) :
    bget (bsetPiece b x y p) x' y' = bget b x' y' :=
  bget_bset_ne _ _ _ _ _ _ h

theorem bget_bsetFlag_ne (b : Board) (x y : Int) (v : Bool) (x' y' : Int)
    (h : x' ≠ x ∨ y' ≠ y) :
    bget (bsetFlag b x y v) x' y' = bget b x' y' :=
  bget_bset_ne _ _ _ _ _ _ h

/-- Writes through `bset` never invent flags: a cell flagged afterwards was
either the written cell (with the written flag) or already flagged. -/
theorem bget_bset_flag_cases (b : Board) (x y : Int) (c : Cell) (x' y' : Int)
    (h : (bget (bset b x y c) x' y').double_move = true) :
    (x' = x ∧ y' = y ∧ (bget (bset b x y c) x' y') = c) ∨
      ((x' ≠ x ∨ y' ≠ y) ∧ bget (bset b x y c) x' y' = bget b x' y') := by
  by_cases hxy : x' = x ∧ y' = y
  · by_cases hin : (0 ≤ x' ∧ x' < 8) ∧ (0 ≤ y' ∧ y' < 8)
    · left
      refine ⟨hxy.1, hxy.2, ?_⟩
      rw [hxy.1, hxy.2]
      exact bget_bset_same b x y c (hxy.1 ▸ hin.1) (hxy.2 ▸ hin.2)
    · exfalso
      rw [bget_oob _ _ _ (by tauto)] at h
      simp [emptyCell] at h
  · right
    have h' : x' ≠ x ∨ y' ≠ y := by tauto
    exact ⟨h', bget_bset_ne _ _ _ _ _ _ h'⟩

end ChessReplay

namespace ChessReplay

/-- C6 counterexample: on the starting position, square (4,4) is empty
(piece is the dot marker, stale color flag false), yet `is_valid_dest`
accepts it as a capture landing for white, because the function never checks
occupancy.  This refutes the claim that a capture landing must be occupied by
an opposite-color non-king piece. -/
theorem c6_counterexample :
    ChessBoard.is_valid_dest initBoard 4 4 true true = true ∧
      (bget initBoard 4 4).piece = '.' := by
  decide

/-- C6 amended: a destination passes the capture test of `is_valid_dest` iff
its cell color flag equals the opponent color and its piece letter is not the
king letter -- equivalently, iff it is occupied by an opposite-color non-king
piece OR it is empty with a matching stale color flag; the non-capture test
requires exactly emptiness.  Occupancy is not checked for captures. -/
theorem c6_amended (b : Board) (x y : Int) (w : Bool) :
    (ChessBoard.is_valid_dest b x y true w = true ↔
      (((bget b x y).piece ≠ '.' ∧ (bget b x y).piece ≠ 'K' ∧
          (bget b x y).is_white = !w) ∨
        ((bget b x y).piece = '.' ∧ (bget b x y).is_white = !w))) ∧
    (ChessBoard.is_valid_dest b x y false w = true ↔ (bget b x y).piece = '.') := by
  constructor
  · simp only [ChessBoard.is_valid_dest, if_pos, Bool.and_eq_true, decide_eq_true_eq,
      bne_iff_ne, ne_eq]
    constructor
    · rintro ⟨h1, h2⟩
      by_cases hdot : (bget b x y).piece = '.'
      · right; exact ⟨hdot, h1⟩
      · left; exact ⟨hdot, by simpa using h2, h1⟩
    · rintro (⟨_, h2, h3⟩ | ⟨h1, h2⟩)
      · exact ⟨h3, by simpa using h2⟩
      · refine ⟨h2, ?_⟩; simp [h1]
  · simp [ChessBoard.is_valid_dest]

end ChessReplay

namespace ChessReplay

/-- C7 counterexample: queenside castling succeeds although column 1 (the
b-file) of the back rank is occupied by a knight; the engine only asserts
columns 2 and 3 empty, refuting the claim that all of columns 1, 2 and 3 are
checked. -/
theorem c7_counterexample :
    Except.isOk (ChessBoard.applyQueenCastling true c7cexBoard) = true ∧
      (bget c7cexBoard 7 1).piece = 'N' := by
  decide

/-- C7 amended: applying a QueenSideCastle succeeds exactly when columns 2
and 3 of the mover back rank are empty (column 1 is not checked; a non-empty
column-2 or column-3 square is a fatal error), and on success the king home
cell (column 4) is copied to column 2, the rook home cell (column 0) is
copied to column 3, and the home squares are emptied. -/
theorem c7_amended (b : Board) (w : Bool) :
    (Except.isOk (ChessBoard.applyQueenCastling w b) = true ↔
      ((bget b (if w then 7 else 0) 2).piece = '.' ∧
        (bget b (if w then 7 else 0) 3).piece = '.')) ∧
    (∀ b', ChessBoard.applyQueenCastling w b = .ok b' →
      bget b' (if w then 7 else 0) 2 = bget b (if w then 7 else 0) 4 ∧
        (bget b' (if w then 7 else 0) 4).piece = '.' ∧
        bget b' (if w then 7 else 0) 3 = bget b (if w then 7 else 0) 0 ∧
        (bget b' (if w then 7 else 0) 0).piece = '.') := by
  have hrow : (0 : Int) ≤ (if w then (7:Int) else 0) ∧ (if w then (7:Int) else 0) < 8 := by
    cases w <;> simp
  by_cases p2 : (bget b (if w then 7 else 0) 2).piece = '.'
  · by_cases p3 : (bget b (if w then 7 else 0) 3).piece = '.'
    · have h2 : ChessBoard.is_free_cell b (if w then 7 else 0) 2 = true := by
        simp [ChessBoard.is_free_cell, p2]
      have h3 : ChessBoard.is_free_cell b (if w then 7 else 0) 3 = true := by
        simp [ChessBoard.is_free_cell, p3]
      have hval : ChessBoard.applyQueenCastling w b =
          .ok (bsetPiece
            (bset
              (bsetPiece (bset b (if w then 7 else 0) 2 (bget b (if w then 7 else 0) 4))
                (if w then 7 else 0) 4 '.')
              (if w then 7 else 0) 3
              (bget
                (bsetPiece (bset b (if w then 7 else 0) 2 (bget b (if w then 7 else 0) 4))
                  (if w then 7 else 0) 4 '.')
                (if w then 7 else 0) 0))
            (if w then 7 else 0) 0 '.') := by
        simp [ChessBoard.applyQueenCastling, iassert, h2, h3, bind, Except.bind]
      rw [hval]
      constructor
      · simp only [Except.isOk, Except.toBool, true_iff]
        exact ⟨p2, p3⟩
      · intro b' hb'
        injection hb' with hb'
        subst hb'
        refine ⟨?_, ?_, ?_, ?_⟩
        · rw [bget_bsetPiece_ne _ _ _ _ _ _ (by right; omega),
            bget_bset_ne _ _ _ _ _ _ (by right; omega),
            bget_bsetPiece_ne _ _ _ _ _ _ (by right; omega),
            bget_bset_same _ _ _ _ hrow (by omega)]
        · rw [bget_bsetPiece_ne _ _ _ _ _ _ (by right; omega),
            bget_bset_ne _ _ _ _ _ _ (by right; omega)]
          unfold bsetPiece
          rw [bget_bset_same _ _ _ _ hrow (by omega)]
        · rw [bget_bsetPiece_ne _ _ _ _ _ _ (by right; omega),
            bget_bset_same _ _ _ _ hrow (by omega),
            bget_bsetPiece_ne _ _ _ _ _ _ (by right; omega),
            bget_bset_ne _ _ _ _ _ _ (by right; omega)]
        · unfold bsetPiece
          rw [bget_bset_same _ _ _ _ hrow (by omega)]
    · have h2 : ChessBoard.is_free_cell b (if w then 7 else 0) 2 = true := by
        simp [ChessBoard.is_free_cell, p2]
      have h3 : ChessBoard.is_free_cell b (if w then 7 else 0) 3 = false := by
        simp [ChessBoard.is_free_cell, p3]
      have hval : ChessBoard.applyQueenCastling w b =
          .error "castling: d-file square occupied" := by
        simp [ChessBoard.applyQueenCastling, iassert, h2, h3, bind, Except.bind]
      rw [hval]
      constructor
      · simp only [Except.isOk, Except.toBool, Bool.false_eq_true, false_iff, not_and]
        intro _
        exact p3
      · intro b' hb'
        cases hb'
  · have h2 : ChessBoard.is_free_cell b (if w then 7 else 0) 2 = false := by
      simp [ChessBoard.is_free_cell, p2]
    have hval : ChessBoard.applyQueenCastling w b =
        .error "castling: c-file square occupied" := by
      simp [ChessBoard.applyQueenCastling, iassert, h2, bind, Except.bind]
    rw [hval]
    constructor
    · simp only [Except.isOk, Except.toBool, Bool.false_eq_true, false_iff, not_and]
      intro hc
      exact absurd hc p2
    · intro b' hb'
      cases hb'

/-- C7 witness: the amended theorem applied at the concrete board with king
and rook on their home squares. -/
theorem c7_witness :
    Except.isOk (ChessBoard.applyQueenCastling true c7wBoard) = true ∧
      bget c7wRes 7 2 = bget c7wBoard 7 4 ∧ (bget c7wRes 7 4).piece = '.' ∧
      bget c7wRes 7 3 = bget c7wBoard 7 0 ∧ (bget c7wRes 7 0).piece = '.' :=
  ⟨(c7_amended c7wBoard true).1.mpr (by decide),
    (c7_amended c7wBoard true).2 c7wRes (by rfl)⟩

end ChessReplay

namespace ChessReplay

/-- C8 counterexample: from the freshly constructed parser, `[` then `*` is a
grammar error, because the state between the header bracket and the header
name (`ParsingLeftBracket`) has no STAR transition.  This refutes the claim
that every state transitions to Finished on STAR. -/
theorem c8_counterexample :
    consumeList pgnInit [.lbracket, .star] =
      .error "event cannot transition to any known state" := by
  rfl

/-- C8 amended: consuming a STAR atom transitions to `Finished` (emitting a
manual `Finish` exactly at parenthesis depth zero) from every parser state
except `ParsingLeftBracket` -- where it is a grammar error -- and the
`Finished` state itself, whose empty transition set trips the internal
assertion. -/
theorem c8_amended (s : PState) (d : Int) (w : Bool)
    (hs1 : s ≠ .ParsingLeftBracket) (hs2 : s ≠ .Finished) (hd : 0 ≤ d) :
    consume ⟨s, d, w⟩ .star =
      .ok (⟨.Finished, d, w⟩, if d > 0 then none else some (.finish .MANUAL)) := by
  have hd' : (decide (d ≥ 0)) = true := by simpa using hd
  cases s <;> simp_all [consume, Tok.kind, skipKind, transFind, transList, iassert,
    lookupT, bind, Except.bind]

/-- C8 witness: the amended theorem applied in the `ParsingMove` state at
depth zero. -/
theorem c8_witness :
    consume ⟨.ParsingMove, 0, false⟩ .star =
      .ok (⟨.Finished, 0, false⟩, some (.finish .MANUAL)) := by
  simpa using c8_amended .ParsingMove 0 false (by decide) (by decide) (by decide)

end ChessReplay

namespace ChessReplay

/-- Running the string automaton over printable non-quote non-backslash
characters appends them to the value and keeps the value free of a trailing
backslash. -/
theorem scanBody_string_plain (p : List Char) :
    ∀ (v rest : List Char),
      (∀ c ∈ p, isPrintC c = true ∧ c ≠ '"' ∧ c ≠ '\\') →
      (v = [] ∨ v.getLast? ≠ some '\\') →
      scanBody (.string v) (p ++ rest) = scanBody (.string (v ++ p)) rest := by
  induction p with
  | nil => intro v rest _ _; simp
  | cons c p ih =>
    intro v rest hp hv
    obtain ⟨hc1, hc2, hc3⟩ := hp c (by simp)
    have hacc : stringAccept v c = (.CONSUMED, v ++ [c]) := by
      unfold stringAccept
      rw [if_neg hc2, if_neg hc3, if_pos hc1, if_neg]
      push_neg
      intro _
      rcases hv with hv | hv
      · simp [hv]
      · exact hv
    have step : scanBody (.string v) (c :: (p ++ rest)) =
        scanBody (.string (v ++ [c])) (p ++ rest) := by
      simp [scanBody, scanAccept, hacc]
    rw [List.cons_append, step,
      ih (v ++ [c]) rest (fun d hd => hp d (by simp [hd]))
        (by right; rw [List.getLast?_concat]; simp [hc3])]
    simp

/-- C9 counterexample: inside a STRING atom with accumulated value `a`, the
two-character sequence backslash-quote terminates the string (the backslash
was consumed and dropped, so it does not escape the quote), refuting the
claim that a backslash before any character escapes it and that
backslash-quote never terminates the string. -/
theorem c9_counterexample :
    scanBody (.string []) ['a', '\\', '"', 'b'] =
      .ok (some (.string "a", none, ['b'])) := by
  rfl

/-- C9 amended: a backslash is recorded into the value only at the start of
the string or directly after another recorded backslash, and only a recorded
backslash escapes a following quote; a backslash anywhere else is consumed
and discarded, so a quote after it terminates the string (first conjunct,
with the value being the preceding printable characters).  A quote directly
after a recorded backslash is appended in its place (second conjunct).  A
printable character other than quote or backslash directly after a recorded
backslash is a fatal lexical error (third conjunct), and any non-printable
byte is always invalid (fourth conjunct). -/
theorem c9_amended :
    (∀ (p rest : List Char), p ≠ [] →
      (∀ c ∈ p, isPrintC c = true ∧ c ≠ '"' ∧ c ≠ '\\') →
      scanBody (.string []) (p ++ '\\' :: '"' :: rest) =
        .ok (some (.string (String.mk p), none, rest))) ∧
    (∀ rest : List Char,
      scanBody (.string []) ('\\' :: '"' :: rest) = scanBody (.string ['"']) rest) ∧
    (∀ (c : Char) (rest : List Char), isPrintC c = true → c ≠ '"' → c ≠ '\\' →
      scanBody (.string ['\\']) (c :: rest) = .error "got unexpected char") ∧
    (∀ (v : List Char) (c : Char), isPrintC c = false → c ≠ '"' → c ≠ '\\' →
      (stringAccept v c).1 = .INVALID) := by
  refine ⟨?_, ?_, ?_, ?_⟩
  · intro p rest hp hplain
    rw [scanBody_string_plain p [] ('\\' :: '"' :: rest) hplain (by left; rfl)]
    simp only [List.nil_append]
    have hlast : p.getLast? ≠ some '\\' := by
      match p, hp with
      | q :: qs, _ =>
        have := (hplain ((q :: qs).getLast (by simp)) (List.getLast_mem (by simp))).2.2
        rw [List.getLast?_eq_getLast _ (by simp)]
        simpa using this
    have hacc1 : stringAccept p '\\' = (.CONSUMED, p) := by
      unfold stringAccept
      rw [if_neg (by decide), if_pos rfl, if_neg (by push_neg; exact ⟨hp, hlast⟩)]
    have hacc2 : stringAccept p '"' = (.TERMINATED_CONSUMED, p) := by
      unfold stringAccept
      rw [if_pos rfl, if_neg hp, if_neg hlast]
    have s1 : scanBody (.string p) ('\\' :: '"' :: rest) =
        scanBody (.string p) ('"' :: rest) := by
      simp [scanBody, scanAccept, hacc1]
    rw [s1]
    simp [scanBody, scanAccept, hacc2, emitTok]
  · intro rest
    rfl
  · intro c rest hc1 hc2 hc3
    have hacc : (stringAccept ['\\'] c).1 = .INVALID := by
      unfold stringAccept
      rw [if_neg hc2, if_neg hc3, if_pos hc1, if_pos (by simp [List.getLast?])]
    simp only [scanBody, scanAccept]
    match hsa : stringAccept ['\\'] c, hacc with
    | (.INVALID, v'), _ => rfl
  · intro v c hc1 hc2 hc3
    unfold stringAccept
    rw [if_neg hc2, if_neg hc3, if_neg (by simp [hc1])]

/-- C9 witness: the first amended conjunct applied to the concrete prefix
`ab`: the mid-string backslash-quote terminates with value `ab`. -/
theorem c9_witness :
    scanBody (.string []) ['a', 'b', '\\', '"', 'c'] =
      .ok (some (.string "ab", none, ['c'])) := by
  have := c9_amended.1 ['a', 'b'] ['c'] (by decide) (by decide)
  simpa using this

end ChessReplay

namespace ChessReplay

/-- Running the symbol automaton over symbol characters just accumulates them
(consuming every one) and tracks digit-only-ness. -/
theorem scanBody_symbol_run (cs : List Char) :
    ∀ (v : List Char) (n : Bool) (rest : List Char),
      (∀ c ∈ cs, is_symbol_char c = true) →
      scanBody (.symbol v n) (cs ++ rest) =
        scanBody (.symbol (v ++ cs) (n && cs.all isDigitC)) rest := by
  induction cs with
  | nil => intro v n rest _; simp
  | cons c cs ih =>
    intro v n rest hcs
    have hc : is_symbol_char c = true := hcs c (by simp)
    have step : scanBody (.symbol v n) (c :: (cs ++ rest)) =
        scanBody (.symbol (v ++ [c]) (n && isDigitC c)) (cs ++ rest) := by
      simp [scanBody, scanAccept, hc]
    rw [List.cons_append, step, ih (v ++ [c]) (n && isDigitC c) rest
      (fun d hd => hcs d (by simp [hd]))]
    simp [Bool.and_assoc]

/-- C10: when the input ends while a SYMBOL/INTEGER atom is still open (all
remaining bytes are symbol characters, the first one a digit or letter, with
no trailing separator), `scan_token` ends the iteration without emitting the
atom and without any error (first conjunct); with a trailing separator the
same text is emitted as an atom (second conjunct).  Concretely, tokenizing
the text `1. e4` yields only the INTEGER and PERIOD atoms -- the trailing
`e4` is silently dropped -- while `1. e4` followed by a space keeps it
(final two conjuncts). -/
theorem c10_trailing_atom_dropped (c : Char) (cs : List Char)
    (h1 : isDigitC c = true ∨ isAlphaC c = true)
    (h2 : ∀ d ∈ cs, is_symbol_char d = true) :
    scanToken none (c :: cs) = .ok none ∧
      scanToken none (c :: cs ++ [' ']) =
        .ok (some (emitTok (.symbol (c :: cs) (isDigitC c && cs.all isDigitC)) true,
          some ' ', [])) ∧
      tokenize "1. e4" = .ok [.integer "1", .period] ∧
      tokenize "1. e4 " = .ok [.integer "1", .period, .symbol "e4"] := by
  have hsep : is_token_separator c = false := by
    rcases Bool.eq_false_or_eq_true (is_token_separator c) with h | h
    · exfalso
      simp only [is_token_separator, Bool.or_eq_true, decide_eq_true_eq] at h
      rcases h with (h | h) | h <;> subst h <;> exact absurd h1 (by decide)
    · exact h
  have hsym : is_symbol_char c = true := by
    rcases h1 with h | h <;> simp [is_symbol_char, h]
  have hdis : dispatch c = .ok (.symbol [] true) := by
    unfold dispatch
    rw [if_neg (fun hh => by subst hh; exact absurd h1 (by decide)),
      if_neg (fun hh => by subst hh; exact absurd h1 (by decide)),
      if_neg (fun hh => by subst hh; exact absurd h1 (by decide)),
      if_neg (fun hh => by subst hh; exact absurd h1 (by decide)),
      if_neg (fun hh => by subst hh; exact absurd h1 (by decide)),
      if_neg (fun hh => by subst hh; exact absurd h1 (by decide)),
      if_neg (fun hh => by subst hh; exact absurd h1 (by decide)),
      if_neg (fun hh => by subst hh; exact absurd h1 (by decide)),
      if_neg (fun hh => by subst hh; exact absurd h1 (by decide)),
      if_neg (fun hh => by subst hh; exact absurd h1 (by decide)),
      if_neg (fun hh => by subst hh; exact absurd h1 (by decide)),
      if_pos (by rcases h1 with h | h <;> simp [h])]
  have hstart : ∀ rest : List Char, scanToken none (c :: rest) =
      scanBody (.symbol [c] (isDigitC c)) rest := by
    intro rest
    simp [scanToken, scanFrom, hsep, scanStart, hdis, bind, Except.bind,
      scanAccept, hsym]
  refine ⟨?_, ?_, by rfl, by rfl⟩
  · rw [hstart cs]
    have := scanBody_symbol_run cs [c] (isDigitC c) [] h2
    simpa using this
  · rw [List.cons_append, hstart (cs ++ [' '])]
    rw [scanBody_symbol_run cs [c] (isDigitC c) [' '] h2]
    simp [scanBody, scanAccept, is_symbol_char, isDigitC, isAlphaC]

/-- C10 witness: the theorem applied to the trailing text `e4`. -/
theorem c10_witness :
    scanToken none ['e', '4'] = .ok none ∧
      scanToken none ['e', '4', ' '] =
        .ok (some (.symbol "e4", some ' ', [])) := by
  have h := c10_trailing_atom_dropped 'e' ['4'] (by decide) (by decide)
  exact ⟨h.1, by simpa [emitTok] using h.2.1⟩

end ChessReplay

namespace ChessReplay

/-- `MoveFactory` builds castling descriptors only in its `O-O` / `O-O-O`
branches, both carrying the `white_turn` argument verbatim. -/
theorem MoveFactory_castling_color (v : String) (w : Bool) (m : Moves)
    (h : MoveFactory v w = .ok m) :
    ∀ c, m = .kingCastling c ∨ m = .queenCastling c → c = w := by
  intro c hc
  unfold MoveFactory at h
  split at h
  · cases h; rcases hc with hc | hc <;> cases hc
  · split at h
    · cases h
      rcases hc with hc | hc
      · cases hc; rfl
      · cases hc
    · split at h
      · cases h
        rcases hc with hc | hc
        · cases hc
        · cases hc; rfl
      · split at h
        · cases h; rcases hc with hc | hc <;> cases hc
        · split at h
          · cases h; rcases hc with hc | hc <;> cases hc
          · split at h
            · cases h; rcases hc with hc | hc <;> cases hc
            · cases hmf : parseNextMove v.data.reverse w v with
              | ok nm =>
                rw [hmf] at h
                simp only [Except.map] at h
                cases h
                rcases hc with hc | hc <;> cases hc
              | error e =>
                rw [hmf] at h
                simp only [Except.map] at h
                cases h

end ChessReplay

namespace ChessReplay

/-- C4 counterexample: feeding `1. O-O` to a fresh parser emits a
KingSideCastle descriptor and toggles the driver white-turn flag from false
to true (the emitted castle even carries the toggled flag), refuting the
claim that emitting a castling descriptor does not toggle the flag and that
its color is independent of the toggle. -/
theorem c4_counterexample :
    consumeList pgnInit [.integer "1", .period, .symbol "O-O"] =
      .ok (⟨.ParsingMove, 0, true⟩, [.kingCastling true]) ∧
      pgnInit.white_turn = false := by
  exact ⟨rfl, rfl⟩

/-- The transition table sends INTEGER atoms to `ParsingNumberIndication` at
most, never into the emitting `ParsingMove` state. -/
theorem transFind_integer_ne_move (s : PState) :
    transFind s .integer ≠ some .ParsingMove := by
  cases s <;> decide

/-- The transition table never sends STRING atoms into `ParsingMove`. -/
theorem transFind_string_ne_move (s : PState) :
    transFind s .string ≠ some .ParsingMove := by
  cases s <;> decide

/-- A token whose kind is SYMBOL carries a value. -/
theorem tok_symbol_value (t : Tok) (hk : t.kind = .symbol) : ∃ v, t.value = some v := by
  cases t <;> simp_all [Tok.kind, Tok.value]

/-- Only SYMBOL, INTEGER and STRING atoms carry a value. -/
theorem tok_value_kinds (t : Tok) (v : String) (hv : t.value = some v) :
    t.kind = .symbol ∨ t.kind = .integer ∨ t.kind = .string := by
  cases t <;> simp_all [Tok.kind, Tok.value]

/-- C4 amended: the driver white-turn flag toggles on exactly the consumed
atoms that are SYMBOL atoms driving a transition into `ParsingMove` at
parenthesis depth zero -- this includes the symbols that produce castling
(and game-termination and `Ignore`) descriptors, not only `NextMove`; and an
emitted castling descriptor carries precisely the toggled flag, i.e. the
parser new `white_turn`. -/
theorem c4_amended (ps : ParserState) (t : Tok) (ps' : ParserState)
    (m : Option Moves) (h : consume ps t = .ok (ps', m)) :
    ((ps'.white_turn ≠ ps.white_turn) ↔
      (t.kind = .symbol ∧ ps.depth = 0 ∧
        transFind ps.state .symbol = some .ParsingMove)) ∧
    (∀ c, m = some (.kingCastling c) ∨ m = some (.queenCastling c) →
      c = ps'.white_turn) := by
  by_cases hsk : skipKind t.kind = true
  · have hc : consume ps t = .ok (ps, none) := by
      unfold consume; rw [if_pos hsk]
    rw [hc] at h
    cases h
    refine ⟨?_, fun c hc' => by rcases hc' with hc' | hc' <;> cases hc'⟩
    simp only [ne_eq, not_true_eq_false, false_iff, not_and]
    intro hks
    exact absurd (hks ▸ hsk) (by decide)
  · by_cases hlp : t.kind = .lparen
    · have hc : consume ps t = .ok ({ ps with depth := ps.depth + 1 }, none) := by
        unfold consume; rw [if_neg hsk, if_pos hlp]
      rw [hc] at h
      cases h
      refine ⟨?_, fun c hc' => by rcases hc' with hc' | hc' <;> cases hc'⟩
      simp only [ne_eq, not_true_eq_false, false_iff, not_and]
      intro hks
      rw [hks] at hlp
      cases hlp
    · by_cases hrp : t.kind = .rparen
      · have hc : consume ps t = .ok ({ ps with depth := ps.depth - 1 }, none) := by
          unfold consume; rw [if_neg hsk, if_neg hlp, if_pos hrp]
        rw [hc] at h
        cases h
        refine ⟨?_, fun c hc' => by rcases hc' with hc' | hc' <;> cases hc'⟩
        simp only [ne_eq, not_true_eq_false, false_iff, not_and]
        intro hks
        rw [hks] at hrp
        cases hrp
      · have hc : consume ps t =
            (iassert (ps.depth ≥ 0) "consume_token: negative parenthesis count").bind
              (fun _ =>
                (iassert (!(transList ps.state).isEmpty)
                    "consume_token: empty transitions").bind
                  (fun _ =>
                    match transFind ps.state t.kind with
                    | none =>
                      if ps.state = .ParsingMove ∧ t.kind = .period then .ok (ps, none)
                      else .error "event cannot transition to any known state"
                    | some s' =>
                      if s' = .Finished then
                        .ok ({ ps with state := .Finished },
                          if ps.depth > 0 then none else some (.finish .MANUAL))
                      else if s' = .ParsingMove then
                        match t.value with
                        | none => .ok ({ ps with state := s' }, none)
                        | some v =>
                          if ps.depth > 0 then .ok ({ ps with state := s' }, none)
                          else
                            (MoveFactory v (!ps.white_turn)).bind fun m' =>
                              .ok (⟨s', ps.depth, !ps.white_turn⟩, some m')
                      else .ok ({ ps with state := s' }, none))) := by
          unfold consume; rw [if_neg hsk, if_neg hlp, if_neg hrp]
        rw [hc] at h
        by_cases hdep : ps.depth ≥ 0
        case neg => simp [iassert, hdep, bind, Except.bind] at h
        by_cases hne : ((transList ps.state).isEmpty : Bool) = true
        case pos => simp [iassert, hdep, hne, bind, Except.bind] at h
        rw [show iassert (ps.depth ≥ 0) "consume_token: negative parenthesis count" =
            .ok () from by simp [iassert, hdep]] at h
        have hne' : (transList ps.state).isEmpty = false := by
          revert hne; cases (transList ps.state).isEmpty <;> simp
        rw [show iassert (!(transList ps.state).isEmpty)
            "consume_token: empty transitions" = .ok () from by
          simp [iassert, hne']] at h
        simp only [bind, Except.bind] at h
        rcases htf : transFind ps.state t.kind with _ | s' <;> rw [htf] at h <;>
          dsimp only at h
        · by_cases htol : ps.state = .ParsingMove ∧ t.kind = .period
          · rw [if_pos htol] at h
            cases h
            refine ⟨?_, fun c hc' => by rcases hc' with hc' | hc' <;> cases hc'⟩
            simp only [ne_eq, not_true_eq_false, false_iff, not_and]
            intro hks
            rw [hks] at htol
            exact absurd htol.2 (by decide)
          · rw [if_neg htol] at h
            cases h
        · by_cases hfin : s' = .Finished
          · rw [if_pos hfin] at h
            cases h
            constructor
            · simp only [ne_eq, not_true_eq_false, false_iff, not_and]
              intro hks _
              rw [hks] at htf
              rw [htf, hfin]
              simp
            · intro c hc'
              rcases hc' with hc' | hc' <;> split at hc' <;> simp at hc'
          · rw [if_neg hfin] at h
            by_cases hmv : s' = .ParsingMove
            · rw [if_pos hmv] at h
              rcases hv : t.value with _ | v <;> rw [hv] at h <;> dsimp only at h
              · cases h
                refine ⟨?_, fun c hc' => by rcases hc' with hc' | hc' <;> cases hc'⟩
                simp only [ne_eq, not_true_eq_false, false_iff, not_and]
                intro hks
                obtain ⟨v, hv'⟩ := tok_symbol_value t hks
                rw [hv'] at hv
                cases hv
              · by_cases hdpos : ps.depth > 0
                · rw [if_pos hdpos] at h
                  cases h
                  refine ⟨?_, fun c hc' => by rcases hc' with hc' | hc' <;> cases hc'⟩
                  simp only [ne_eq, not_true_eq_false, false_iff, not_and]
                  intro _ hd0
                  omega
                · rw [if_neg hdpos] at h
                  have hd0 : ps.depth = 0 := by omega
                  rcases hmf : MoveFactory v (!ps.white_turn) with e | mv <;>
                    rw [hmf] at h <;> simp only [bind, Except.bind] at h
                  · cases h
                  cases h
                  have hkind : t.kind = .symbol := by
                    rcases tok_value_kinds t v hv with hk | hk | hk
                    · exact hk
                    · rw [hk, hmv] at htf
                      exact absurd htf (transFind_integer_ne_move ps.state)
                    · rw [hk, hmv] at htf
                      exact absurd htf (transFind_string_ne_move ps.state)
                  constructor
                  · simp only [ne_eq]
                    constructor
                    · intro _
                      exact ⟨hkind, hd0, by rw [← hkind, htf, hmv]⟩
                    · intro _
                      simp
                  · intro c hc'
                    have hmm : mv = .kingCastling c ∨ mv = .queenCastling c := by
                      rcases hc' with hc' | hc'
                      · left; exact Option.some.inj hc'
                      · right; exact Option.some.inj hc'
                    exact MoveFactory_castling_color v (!ps.white_turn) mv hmf c hmm
            · rw [if_neg hmv] at h
              cases h
              constructor
              · simp only [ne_eq, not_true_eq_false, false_iff, not_and]
                intro hks _
                rw [hks] at htf
                rw [htf]
                intro hcon
                exact hmv (Option.some.inj hcon)
              · intro c hc'
                rcases hc' with hc' | hc' <;> cases hc'

/-- C4 witness: the amended theorem applied to the `O-O` symbol consumed in
the `ParsingPeriod` state at depth zero. -/
theorem c4_witness :
    (true ≠ pgnInit.white_turn ↔
      (Tok.symbol "O-O").kind = .symbol ∧ pgnInit.depth = 0 ∧
        transFind PState.ParsingPeriod .symbol = some .ParsingMove) ∧
    (∀ c, some (Moves.kingCastling true) = some (.kingCastling c) ∨
        some (Moves.kingCastling true) = some (.queenCastling c) → c = true) := by
  have h := c4_amended ⟨.ParsingPeriod, 0, false⟩ (.symbol "O-O")
    ⟨.ParsingMove, 0, true⟩ (some (.kingCastling true)) (by rfl)
  exact h

end ChessReplay

namespace ChessReplay

/-- C5: a pawn capture step (forward distance 1, file distance 1) onto an
empty destination is the en-passant branch of `can_move_pawn`: it succeeds
(returning legal and removing the pawn on the source rank and destination
file) exactly when that pawn exists, is of the opposite color, and carries
`double_move`; when any of those conditions fails the branch is a fatal
error (never merely illegal).  The final conjunct checks the concrete
scenario: black pawn (1,1), white pawn (3,2), play `b5` then `cxb6`; the
white pawn ends at (2,1), the sources are empty, and no flag is set. -/
theorem c5_en_passant (b : Board) (sx sy dx dy : Int) (w : Bool)
    (hdx : (if w then sx - dx else dx - sx) = 1)
    (hdy : (dy - sy).natAbs = 1)
    (hempty : (bget b dx dy).piece = '.')
    (hrange : 0 ≤ dy ∧ dy ≤ 7) :
    (((bget b sx dy).piece = 'P' ∧ (bget b sx dy).is_white = !w ∧
        (bget b sx dy).double_move = true) →
      ChessBoard.can_move_pawn b (sx, sy) (dx, dy) true w =
        .ok (true, epRemove b sx dy)) ∧
    (¬((bget b sx dy).piece = 'P' ∧ (bget b sx dy).is_white = !w ∧
        (bget b sx dy).double_move = true) →
      Except.isOk (ChessBoard.can_move_pawn b (sx, sy) (dx, dy) true w) = false) ∧
    c5check = true := by
  have hcy : sy + (dy - sy) = dy := by ring
  have hbranch : ChessBoard.can_move_pawn b (sx, sy) (dx, dy) true w =
      (iassert (ChessBoard.in_range dy) "can_move_pawn: en passant file out of range").bind
        (fun _ =>
          (iassert ((bget b sx dy).piece = 'P')
              "can_move_pawn: en passant target is not a pawn").bind
            (fun _ =>
              (iassert ((bget b sx dy).is_white = !w)
                  "can_move_pawn: en passant wrong color").bind
                (fun _ =>
                  (iassert (bget b sx dy).double_move
                      "can_move_pawn: en passant target lacks double_move").bind
                    (fun _ =>
                      .ok (true, bset b sx dy
                        { bget b sx dy with piece := '.', double_move := false }))))) := by
    unfold ChessBoard.can_move_pawn
    simp only [hcy, hdx, hdy]
    simp [hempty, bind, Except.bind]
  have hinr : ChessBoard.in_range dy = true := by
    simp [ChessBoard.in_range]
    omega
  refine ⟨?_, ?_, by decide⟩
  · rintro ⟨h1, h2, h3⟩
    rw [hbranch]
    simp [iassert, hinr, h1, h2, h3, bind, Except.bind, epRemove]
  · intro hcon
    rw [hbranch]
    by_cases h1 : (bget b sx dy).piece = 'P'
    · by_cases h2 : (bget b sx dy).is_white = !w
      · by_cases h3 : (bget b sx dy).double_move = true
        · exact absurd ⟨h1, h2, h3⟩ hcon
        · simp [iassert, hinr, h1, h2, h3, bind, Except.bind, Except.isOk, Except.toBool]
      · simp [iassert, hinr, h1, h2, bind, Except.bind, Except.isOk, Except.toBool]
    · simp [iassert, hinr, h1, bind, Except.bind, Except.isOk, Except.toBool]

/-- C5 witness: the en-passant characterization applied in the concrete
scenario at the `cxb6` step (white pawn on (3,2) capturing to (2,1), black
pawn on (3,1) carrying the flag after `b5`). -/
theorem c5_witness :
    ChessBoard.can_move_pawn c5midBoard (3, 2) (2, 1) true true =
      .ok (true, epRemove c5midBoard 3 1) :=
  (c5_en_passant c5midBoard 3 2 2 1 true (by decide) (by decide) (by decide)
    (by decide)).1 (by decide)

end ChessReplay

namespace ChessReplay
namespace ChessBoard

/-- Full case characterization of a successful `evalStep`: either the pair
was locked (state unchanged), or the per-piece test ran, the match counter
accumulated its verdict, and the found/cleanup bookkeeping happened exactly
when the pair became the first match. -/
theorem evalStep_ok (mv : NextMove) (st : EvalState) (p : (Int × Int) × (Int × Int))
    (st1 : EvalState) (h : evalStep mv st p = .ok st1) :
    st1 = st ∨
    ∃ (r : Bool) (b1 : Board),
      can_move_piece mv.piece st.board p.1 p.2 mv.capture mv.is_white_move = .ok (r, b1) ∧
      st1.matchCount = st.matchCount + (if r then 1 else 0) ∧
      ((st.found = none ∧ st1.matchCount = 1 ∧ st1.found = some p ∧
        ((mv.piece = 'P' ∧
           ((bget b1 p.1.1 p.1.2).double_move = true ∧
              st1.board = bsetFlag b1 p.1.1 p.1.2 false ∨
            (bget b1 p.1.1 p.1.2).double_move = false ∧ st1.board = b1)) ∨
         (mv.piece ≠ 'P' ∧ mv.capture = true ∧
           ((bget b1 p.2.1 p.2.2).double_move = true ∧ (bget b1 p.2.1 p.2.2).piece = 'P' ∧
              st1.board = bsetFlag b1 p.2.1 p.2.2 false ∨
            (bget b1 p.2.1 p.2.2).double_move = false ∧ st1.board = b1)) ∨
         (mv.piece ≠ 'P' ∧ mv.capture = false ∧ st1.board = b1))) ∨
       (¬(st.found = none ∧ st.matchCount + (if r then 1 else 0) = 1) ∧
         st1.found = st.found ∧ st1.board = b1)) := by
  unfold evalStep at h
  rcases hlk : is_locked st.board p.1 p.2 mv.capture mv.is_white_move with e | locked <;>
    rw [hlk] at h <;> simp only [bind, Except.bind] at h
  · cases h
  by_cases hl : locked = true
  · rw [if_pos hl] at h
    cases h
    left; rfl
  · rw [if_neg hl] at h
    rcases hcm : can_move_piece mv.piece st.board p.1 p.2 mv.capture mv.is_white_move
      with e | rb <;> rw [hcm] at h <;> simp only [bind, Except.bind] at h
    · cases h
    right
    obtain ⟨r, b1⟩ := rb
    refine ⟨r, b1, ?_, ?_⟩
    · rfl
    by_cases hcond : st.found = none ∧ st.matchCount + (if r then 1 else 0) = 1
    · rw [if_pos hcond] at h
      by_cases hp : mv.piece = 'P'
      · rw [if_pos hp] at h
        by_cases hfl : (bget b1 p.1.1 p.1.2).double_move = true
        · rw [if_pos hfl] at h
          cases h
          exact ⟨rfl, Or.inl ⟨hcond.1, hcond.2, rfl, Or.inl ⟨hp, Or.inl ⟨hfl, rfl⟩⟩⟩⟩
        · rw [if_neg hfl] at h
          cases h
          exact ⟨rfl, Or.inl ⟨hcond.1, hcond.2, rfl,
            Or.inl ⟨hp, Or.inr ⟨by simpa using hfl, rfl⟩⟩⟩⟩
      · rw [if_neg hp] at h
        by_cases hcap : mv.capture = true
        · rw [if_pos hcap] at h
          by_cases hfl : (bget b1 p.2.1 p.2.2).double_move = true
          · rw [if_pos hfl] at h
            rcases hia : iassert ((bget b1 p.2.1 p.2.2).piece = 'P')
                "apply: double_move flag on a non-pawn" with e | u <;>
              rw [hia] at h <;> simp only [bind, Except.bind] at h
            · cases h
            have hpp : (bget b1 p.2.1 p.2.2).piece = 'P' := by
              by_contra hcon
              simp [iassert, hcon] at hia
            cases h
            exact ⟨rfl, Or.inl ⟨hcond.1, hcond.2, rfl,
              Or.inr (Or.inl ⟨hp, hcap, Or.inl ⟨hfl, hpp, rfl⟩⟩)⟩⟩
          · rw [if_neg hfl] at h
            cases h
            exact ⟨rfl, Or.inl ⟨hcond.1, hcond.2, rfl,
              Or.inr (Or.inl ⟨hp, hcap, Or.inr ⟨by simpa using hfl, rfl⟩⟩)⟩⟩
        · rw [if_neg hcap] at h
          cases h
          exact ⟨rfl, Or.inl ⟨hcond.1, hcond.2, rfl,
            Or.inr (Or.inr ⟨hp, by simpa using hcap, rfl⟩)⟩⟩
    · rw [if_neg hcond] at h
      cases h
      exact ⟨rfl, Or.inr ⟨hcond, rfl, rfl⟩⟩

/-- Along a successful fold, the invariant that an absent first match forces
a zero match counter is preserved. -/
theorem evalPairs_none_zero (mv : NextMove) :
    ∀ (pairs : List ((Int × Int) × (Int × Int))) (st st' : EvalState),
      evalPairs mv pairs st = .ok st' →
      (st.found = none → st.matchCount = 0) →
      (st'.found = none → st'.matchCount = 0) := by
  intro pairs
  induction pairs with
  | nil =>
    intro st st' h hinv
    unfold evalPairs at h
    cases h
    exact hinv
  | cons p ps ih =>
    intro st st' h hinv
    unfold evalPairs at h
    rcases hstep : evalStep mv st p with e | st1 <;> rw [hstep] at h <;>
      simp only [bind, Except.bind] at h
    · cases h
    refine ih st1 st' h ?_
    rcases evalStep_ok mv st p st1 hstep with heq | ⟨r, b1, _, hmc, hcase⟩
    · rw [heq]; exact hinv
    · rcases hcase with ⟨_, _, hf, _⟩ | ⟨hncond, hf, _⟩
      · intro hcon; rw [hf] at hcon; cases hcon
      · intro hnone
        rw [hf] at hnone
        have h0 := hinv hnone
        rcases Bool.eq_false_or_eq_true r with hr | hr
        · exact absurd ⟨hnone, by simp [h0, hr]⟩ hncond
        · rw [hmc]
          simp [h0, hr]

end ChessBoard
end ChessReplay

namespace ChessReplay
namespace ChessBoard

/-- Unfolding of `applyNext` once its preliminary assertions hold: the
remaining computation is the candidate-pair fold followed by the
exactly-one-match assertion and the three board writes. -/
theorem applyNext_unfold (mv : NextMove) (b : Board)
    (h1 : mv.piece ≠ Char.ofNat 0) (h2 : mv.dst.y.isSome = true)
    (h3 : srcCandidates b mv ≠ []) (dc : List (Int × Int))
    (hdc : dstCandidates b mv = .ok dc) (h4 : dc ≠ []) :
    applyNext mv b =
      (evalPairs mv (pairList (srcCandidates b mv) dc) ⟨0, none, b⟩).bind fun st =>
        (iassert (st.matchCount = 1) "apply: zero or multiple legal resolutions").bind
          fun _ =>
            match st.found with
            | none => .error "apply: no match recorded"
            | some pair =>
              .ok (bsetWhite
                (bsetPiece
                  (bsetPiece st.board pair.2.1 pair.2.2
                    (match mv.promote_piece with | some pp => pp | none => mv.piece))
                  pair.1.1 pair.1.2 '.')
                pair.2.1 pair.2.2 mv.is_white_move) := by
  unfold applyNext
  dsimp only
  rw [show iassert (mv.piece ≠ Char.ofNat 0) "apply: null piece" = .ok () from by
    simp [iassert, h1]]
  rw [show iassert mv.dst.y.isSome "apply: dst.y missing" = .ok () from by
    simp [iassert, h2]]
  have hsc : (srcCandidates b mv).isEmpty = false := by
    rcases hx : srcCandidates b mv with _ | ⟨a, as⟩
    · exact absurd hx h3
    · rfl
  rw [show iassert (!(srcCandidates b mv).isEmpty) "apply: no src candidates" =
      .ok () from by simp [iassert, hsc]]
  rw [hdc]
  simp only [bind, Except.bind]
  have hdcε : dc.isEmpty = false := by
    rcases hx : dc with _ | ⟨a, as⟩
    · exact absurd hx h4
    · rfl
  rw [show iassert (!dc.isEmpty) "apply: no dst candidates" = .ok () from by
    simp [iassert, hdcε]]

/-- C1: once `apply` reaches the candidate-pair loop (its coordinate and
non-empty-candidate assertions hold and the loop itself does not abort), the
application succeeds if and only if the loop counted exactly one legal
`(src, dst)` pair -- the loop runs over the complete candidate product
`pairList`, so zero legal pairs or more than one legal pair is exactly the
fatal-error case. -/
theorem c1_exactly_one_legal_pair (mv : NextMove) (b : Board)
    (st : EvalState) (dc : List (Int × Int))
    (h1 : mv.piece ≠ Char.ofNat 0) (h2 : mv.dst.y.isSome = true)
    (h3 : srcCandidates b mv ≠ [])
    (hdc : dstCandidates b mv = .ok dc) (h4 : dc ≠ [])
    (hev : evalPairs mv (pairList (srcCandidates b mv) dc) ⟨0, none, b⟩ = .ok st) :
    Except.isOk (applyNext mv b) = true ↔ st.matchCount = 1 := by
  rw [applyNext_unfold mv b h1 h2 h3 dc hdc h4]
  rw [hev]
  simp only [bind, Except.bind]
  by_cases hm : st.matchCount = 1
  · rw [show iassert (st.matchCount = 1) "apply: zero or multiple legal resolutions" =
        .ok () from by simp [iassert, hm]]
    have hfound : st.found ≠ none := by
      intro hcon
      have := evalPairs_none_zero mv _ _ _ hev (fun _ => rfl) hcon
      omega
    rcases hf : st.found with _ | pair
    · exact absurd hf hfound
    · simp [Except.isOk, Except.toBool, hm]
  · rw [show iassert (st.matchCount = 1) "apply: zero or multiple legal resolutions" =
        .error "apply: zero or multiple legal resolutions" from by simp [iassert, hm]]
    simp [Except.isOk, Except.toBool, hm]

/-- C1 witness: the theorem applied to a lone fully hinted pawn push, whose
fold finds exactly one legal pair. -/
theorem c1_witness :
    Except.isOk (applyNext c1wMv c1wBoard) = true :=
  (c1_exactly_one_legal_pair c1wMv c1wBoard c1wSt [(4, 4)]
    (by decide) (by decide) (by decide) (by rfl) (by decide) (by rfl)).mpr (by decide)

end ChessBoard
end ChessReplay

namespace ChessReplay

theorem tokDepth_zero (t : Tok) (hlp : t.kind ≠ .lparen) (hrp : t.kind ≠ .rparen) :
    tokDepth t = 0 := by
  cases t <;> simp_all [Tok.kind, tokDepth]

theorem netDepth_cons (t : Tok) (ts : List Tok) :
    netDepth (t :: ts) = tokDepth t + netDepth ts := by
  simp [netDepth]

/-- While the parenthesis depth is at least one, a consumed token emits
nothing, leaves the white-turn flag alone, and only the depth counter moves
(by the token paren delta). -/
theorem consume_pos_depth (ps : ParserState) (t : Tok) (ps' : ParserState)
    (m : Option Moves) (h : consume ps t = .ok (ps', m)) (hd : 1 ≤ ps.depth) :
    m = none ∧ ps'.white_turn = ps.white_turn ∧ ps'.depth = ps.depth + tokDepth t := by
  by_cases hsk : skipKind t.kind = true
  · have hc : consume ps t = .ok (ps, none) := by
      unfold consume; rw [if_pos hsk]
    rw [hc] at h
    cases h
    refine ⟨rfl, rfl, ?_⟩
    rw [tokDepth_zero t ?_ ?_] <;> first | omega | (intro hk; rw [hk] at hsk; simp [skipKind] at hsk)
  · by_cases hlp : t.kind = .lparen
    · have hc : consume ps t = .ok ({ ps with depth := ps.depth + 1 }, none) := by
        unfold consume; rw [if_neg hsk, if_pos hlp]
      rw [hc] at h
      cases h
      have ht : t = .lparen := by cases t <;> simp_all [Tok.kind]
      refine ⟨rfl, rfl, by rw [ht]; simp [tokDepth]⟩
    · by_cases hrp : t.kind = .rparen
      · have hc : consume ps t = .ok ({ ps with depth := ps.depth - 1 }, none) := by
          unfold consume; rw [if_neg hsk, if_neg hlp, if_pos hrp]
        rw [hc] at h
        cases h
        have ht : t = .rparen := by cases t <;> simp_all [Tok.kind]
        refine ⟨rfl, rfl, by rw [ht]; simp [tokDepth]; omega⟩
      · have hc : consume ps t =
            (iassert (ps.depth ≥ 0) "consume_token: negative parenthesis count").bind
              (fun _ =>
                (iassert (!(transList ps.state).isEmpty)
                    "consume_token: empty transitions").bind
                  (fun _ =>
                    match transFind ps.state t.kind with
                    | none =>
                      if ps.state = .ParsingMove ∧ t.kind = .period then .ok (ps, none)
                      else .error "event cannot transition to any known state"
                    | some s' =>
                      if s' = .Finished then
                        .ok ({ ps with state := .Finished },
                          if ps.depth > 0 then none else some (.finish .MANUAL))
                      else if s' = .ParsingMove then
                        match t.value with
                        | none => .ok ({ ps with state := s' }, none)
                        | some v =>
                          if ps.depth > 0 then .ok ({ ps with state := s' }, none)
                          else
                            (MoveFactory v (!ps.white_turn)).bind fun m' =>
                              .ok (⟨s', ps.depth, !ps.white_turn⟩, some m')
                      else .ok ({ ps with state := s' }, none))) := by
          unfold consume; rw [if_neg hsk, if_neg hlp, if_neg hrp]
        rw [hc] at h
        rw [show iassert (ps.depth ≥ 0) "consume_token: negative parenthesis count" =
            .ok () from by simp [iassert]; omega] at h
        by_cases hne : ((transList ps.state).isEmpty : Bool) = true
        case pos => simp [iassert, hne, bind, Except.bind] at h
        have hne' : (transList ps.state).isEmpty = false := by
          revert hne; cases (transList ps.state).isEmpty <;> simp
        rw [show iassert (!(transList ps.state).isEmpty)
            "consume_token: empty transitions" = .ok () from by simp [iassert, hne']] at h
        simp only [bind, Except.bind] at h
        have hdz : tokDepth t = 0 := tokDepth_zero t hlp hrp
        rcases htf : transFind ps.state t.kind with _ | s' <;> rw [htf] at h <;>
          dsimp only at h
        · by_cases htol : ps.state = .ParsingMove ∧ t.kind = .period
          · rw [if_pos htol] at h; cases h; exact ⟨rfl, rfl, by omega⟩
          · rw [if_neg htol] at h; cases h
        · by_cases hfin : s' = .Finished
          · rw [if_pos hfin] at h
            cases h
            exact ⟨by rw [if_pos (by omega)], rfl, by simp; omega⟩
          · rw [if_neg hfin] at h
            by_cases hmv : s' = .ParsingMove
            · rw [if_pos hmv] at h
              rcases hv : t.value with _ | v <;> rw [hv] at h <;> dsimp only at h
              · cases h; exact ⟨rfl, rfl, by simp; omega⟩
              · rw [if_pos (by omega : ps.depth > 0)] at h
                cases h
                exact ⟨rfl, rfl, by simp; omega⟩
            · rw [if_neg hmv] at h
              cases h
              exact ⟨rfl, rfl, by simp; omega⟩

/-- A parenthesis-balanced token list consumed entirely at depth at least one
emits nothing, keeps the white-turn flag, and shifts the depth by its net
parenthesis count. -/
theorem consumeList_inside :
    ∀ (ts : List Tok) (ps ps' : ParserState) (ms : List Moves),
      consumeList ps ts = .ok (ps', ms) →
      (∀ n, n ≤ ts.length → 1 ≤ ps.depth + netDepth (ts.take n)) →
      ms = [] ∧ ps'.white_turn = ps.white_turn ∧ ps'.depth = ps.depth + netDepth ts := by
  intro ts
  induction ts with
  | nil =>
    intro ps ps' ms h _
    unfold consumeList at h
    cases h
    exact ⟨rfl, rfl, by simp [netDepth]⟩
  | cons t ts ih =>
    intro ps ps' ms h hbal
    unfold consumeList at h
    rcases hcs : consume ps t with e | pm <;> rw [hcs] at h <;>
      simp only [bind, Except.bind] at h
    · cases h
    rcases hcl : consumeList pm.1 ts with e | res <;> rw [hcl] at h <;>
      simp only [bind, Except.bind] at h
    · cases h
    cases h
    have hd : 1 ≤ ps.depth := by
      have := hbal 0 (by omega)
      simpa [netDepth] using this
    obtain ⟨hm, hw, hdep⟩ := consume_pos_depth ps t pm.1 pm.2 (by rw [hcs]) hd
    have hbal' : ∀ n, n ≤ ts.length → 1 ≤ pm.1.depth + netDepth (ts.take n) := by
      intro n hn
      have hh := hbal (n + 1) (by simpa using hn)
      rw [List.take_succ_cons, netDepth_cons] at hh
      rw [hdep]
      omega
    obtain ⟨hms, hw', hdep'⟩ := ih pm.1 res.1 res.2 (by rw [hcl]) hbal'
    refine ⟨by rw [hm, hms]; rfl, by rw [hw', hw], ?_⟩
    rw [hdep', hdep, netDepth_cons]
    omega

/-- The main replay loop distributes over list append, stopping early when a
`Finish` descriptor broke the loop. -/
theorem runLoop_append :
    ∀ (xs : List Tok) (ps : ParserState) (b : Board) (ys : List Tok),
      runLoop ps b (xs ++ ys) =
        (runLoop ps b xs).bind fun res =>
          if res.2.2 then .ok res else runLoop res.1 res.2.1 ys := by
  intro xs
  induction xs with
  | nil =>
    intro ps b ys
    simp [runLoop, bind, Except.bind]
  | cons x xs ih =>
    intro ps b ys
    rw [List.cons_append]
    simp only [runLoop]
    rcases hcs : consume ps x with e | pm <;> simp only [bind, Except.bind]
    rcases hm : pm.2 with _ | mv <;> try dsimp only
    · exact ih pm.1 b ys
    · rcases mv with w | w | nm | mk | _ <;> try dsimp only
      case finish => simp [bind, Except.bind]
      all_goals
        rcases hap : ChessBoard.apply _ b with e | b' <;> simp only [bind, Except.bind]
      all_goals first | rfl | exact ih pm.1 b' ys

/-- Tokens that parse with no emissions leave the board replay loop on the
same board, only advancing the parser state. -/
theorem runLoop_of_consumeList_nil :
    ∀ (ts : List Tok) (ps ps' : ParserState) (b : Board) (ys : List Tok),
      consumeList ps ts = .ok (ps', []) →
      runLoop ps b (ts ++ ys) = runLoop ps' b ys := by
  intro ts
  induction ts with
  | nil =>
    intro ps ps' b ys h
    unfold consumeList at h
    cases h
    rfl
  | cons t ts ih =>
    intro ps ps' b ys h
    unfold consumeList at h
    rcases hcs : consume ps t with e | pm <;> rw [hcs] at h <;>
      simp only [bind, Except.bind] at h
    · cases h
    rcases hcl : consumeList pm.1 ts with e | res <;> rw [hcl] at h <;>
      simp only [bind, Except.bind] at h
    · cases h
    have hpair := Except.ok.inj h
    have h1 : res.1 = ps' := congrArg Prod.fst hpair
    have h2 : (match pm.2 with | some m => [m] | none => ([] : List Moves)) ++ res.2
        = [] := congrArg Prod.snd hpair
    rcases List.append_eq_nil.mp h2 with ⟨h2a, h2b⟩
    have hm : pm.2 = none := by
      rcases hx : pm.2 with _ | mv
      · rfl
      · rw [hx] at h2a
        simp at h2a
    rw [List.cons_append]
    simp only [runLoop]
    rw [hcs]
    simp only [bind, Except.bind, hm]
    try dsimp only
    have hres1 : consumeList pm.1 ts = .ok (ps', []) := by
      rw [hcl, show res = (res.1, res.2) from rfl, h1, h2b]
    exact ih pm.1 ps' b ys hres1

end ChessReplay

namespace ChessReplay

/-- C3: replaying a PGN with a parenthesis-balanced RAV (entered from the
post-move state at depth zero, returning the automaton to the move state) is
the same replay as with the RAV removed -- the general statement over token
lists, plus the concrete claim instance: the text `1. e4 (1. d4 d5)
{Ruy Lopez} e5` replays to the same final board as `1. e4 e5` (with or
without a trailing newline). -/
theorem c3_rav_removal :
    (∀ (pre body rest : List Tok) (b0 bmid : Board) (w : Bool)
      (psb : ParserState) (ms : List Moves),
      runLoop pgnInit b0 pre = .ok (⟨.ParsingMove, 0, w⟩, bmid, false) →
      consumeList ⟨.ParsingMove, 1, w⟩ body = .ok (psb, ms) →
      psb.state = .ParsingMove →
      netDepth body = 0 →
      (∀ n, n ≤ body.length → 0 ≤ netDepth (body.take n)) →
      runLoop pgnInit b0 (pre ++ .lparen :: (body ++ .rparen :: rest)) =
        runLoop pgnInit b0 (pre ++ rest)) ∧
    replayPGN "1. e4 (1. d4 d5) {Ruy Lopez} e5" = replayPGN "1. e4 e5" ∧
    replayPGN "1. e4 (1. d4 d5) {Ruy Lopez} e5\n" = replayPGN "1. e4 e5\n" := by
  refine ⟨?_, by decide, by decide⟩
  intro pre body rest b0 bmid w psb ms hpre hbody hstate hnet hbal
  rw [runLoop_append pre pgnInit b0 (.lparen :: (body ++ .rparen :: rest)),
    runLoop_append pre pgnInit b0 rest, hpre]
  simp only [bind, Except.bind, if_neg (by simp : ¬(false = true))]
  obtain ⟨hms, hw, hdep⟩ := consumeList_inside body ⟨.ParsingMove, 1, w⟩ psb ms hbody
    (by intro n hn; have := hbal n hn; simp only [ParserState.depth]; omega)
  have hpsb : psb = ⟨.ParsingMove, 1, w⟩ := by
    rcases psb with ⟨s, d, ww⟩
    simp only [ParserState.depth, ParserState.white_turn] at hdep hw
    simp only [ParserState.state] at hstate
    rw [hstate, hw, hdep, hnet]
    norm_num
  have hstep1 : runLoop ⟨.ParsingMove, 0, w⟩ bmid (.lparen :: (body ++ .rparen :: rest)) =
      runLoop ⟨.ParsingMove, 1, w⟩ bmid (body ++ .rparen :: rest) := by
    simp only [runLoop]
    rfl
  rw [hstep1]
  rw [runLoop_of_consumeList_nil body ⟨.ParsingMove, 1, w⟩ psb bmid (.rparen :: rest)
    (by rw [hbody, hms])]
  rw [hpsb]
  have hstep2 : runLoop ⟨.ParsingMove, 1, w⟩ bmid (.rparen :: rest) =
      runLoop ⟨.ParsingMove, 0, w⟩ bmid rest := by
    simp only [runLoop]
    rfl
  rw [hstep2]

/-- C3 witness: the general RAV-removal statement applied to the concrete
token lists of `1. e4 (1. d4 d5) e5 *` versus `1. e4 e5 *`. -/
theorem c3_witness :
    runLoop pgnInit initBoard (c3pre ++ .lparen :: (c3body ++ .rparen :: c3rest)) =
      runLoop pgnInit initBoard (c3pre ++ c3rest) := by
  refine c3_rav_removal.1 c3pre c3body c3rest initBoard c3preBoard true
    ⟨.ParsingMove, 1, true⟩ [] (by rfl) (by rfl) (by rfl) (by decide) ?_
  intro n hn
  have hn4 : n ≤ 4 := by simpa [c3body] using hn
  interval_cases n <;> decide

end ChessReplay

namespace ChessReplay

/-- C2 counterexample: on the well-formed game `1. e4 d5` two cells carry
`double_move` simultaneously (the flag of the previous double push is never
cleared by the opponent push), and after `2. exd5` the flagged cell holds a
WHITE pawn on rank 5 (row 3) -- a pawn capture onto a flagged square does
not clear the flag.  Both refute the claimed invariant. -/
theorem c2_counterexample : c2check1 = true ∧ c2check2 = true := by
  decide

theorem bget_coe (b : Board) (i j : Fin 8) : bget b (i : Int) (j : Int) = b i j := by
  have hi : (0:Int) ≤ (i : Int) ∧ (i : Int) < 8 := by
    constructor <;> [positivity; exact_mod_cast i.isLt]
  have hj : (0:Int) ≤ (j : Int) ∧ (j : Int) < 8 := by
    constructor <;> [positivity; exact_mod_cast j.isLt]
  rw [bget_eq_of_mem b _ _ hi hj]
  congr 1

theorem bget_flag_in_range (b : Board) (x y : Int)
    (h : (bget b x y).double_move = true) :
    (0 ≤ x ∧ x < 8) ∧ (0 ≤ y ∧ y < 8) := by
  by_cases hx : 0 ≤ x ∧ x < 8
  · by_cases hy : 0 ≤ y ∧ y < 8
    · exact ⟨hx, hy⟩
    · rw [bget_oob b x y (by tauto)] at h
      simp [emptyCell] at h
  · rw [bget_oob b x y (by tauto)] at h
    simp [emptyCell] at h

theorem DMInv_bget (b : Board) (hinv : DMInv b) (x y : Int)
    (hf : (bget b x y).double_move = true) :
    (bget b x y).piece = 'P' ∧ (x = 3 ∨ x = 4) := by
  obtain ⟨hx, hy⟩ := bget_flag_in_range b x y hf
  rw [bget_eq_of_mem b x y hx hy] at hf ⊢
  have hpr := hinv ⟨x.toNat, by omega⟩ ⟨y.toNat, by omega⟩ hf
  have h2 : x.toNat = 3 ∨ x.toNat = 4 := hpr.2
  exact ⟨hpr.1, by omega⟩

theorem DMInv_of_bget (b : Board)
    (h : ∀ x y : Int, (bget b x y).double_move = true →
      (bget b x y).piece = 'P' ∧ (x = 3 ∨ x = 4)) : DMInv b := by
  intro i j hf
  have hpr := h i j (by rw [bget_coe]; exact hf)
  rw [bget_coe] at hpr
  refine ⟨hpr.1, ?_⟩
  have h2 := hpr.2
  omega

/-- `bsetPiece` never changes a `double_move` flag. -/
theorem flag_bsetPiece (b : Board) (x0 y0 : Int) (p : Char) (x y : Int) :
    (bget (bsetPiece b x0 y0 p) x y).double_move = (bget b x y).double_move := by
  by_cases hxy : x = x0 ∧ y = y0
  · by_cases hr : (0 ≤ x0 ∧ x0 < 8) ∧ (0 ≤ y0 ∧ y0 < 8)
    · rw [hxy.1, hxy.2]
      unfold bsetPiece
      rw [bget_bset_same _ _ _ _ hr.1 hr.2]
    · have h1 : bget (bsetPiece b x0 y0 p) x y = emptyCell :=
        bget_oob _ x y (by rw [hxy.1, hxy.2]; tauto)
      have h2 : bget b x y = emptyCell :=
        bget_oob _ x y (by rw [hxy.1, hxy.2]; tauto)
      rw [h1, h2]
  · exact congrArg Cell.double_move (bget_bsetPiece_ne _ _ _ _ _ _ (by tauto))

end ChessReplay

namespace ChessReplay

/-- `bsetWhite` never changes a `double_move` flag. -/
theorem flag_bsetWhite (b : Board) (x0 y0 : Int) (w : Bool) (x y : Int) :
    (bget (bsetWhite b x0 y0 w) x y).double_move = (bget b x y).double_move := by
  by_cases hxy : x = x0 ∧ y = y0
  · by_cases hr : (0 ≤ x0 ∧ x0 < 8) ∧ (0 ≤ y0 ∧ y0 < 8)
    · rw [hxy.1, hxy.2]
      unfold bsetWhite
      rw [bget_bset_same _ _ _ _ hr.1 hr.2]
    · have h1 : bget (bsetWhite b x0 y0 w) x y = emptyCell :=
        bget_oob _ x y (by rw [hxy.1, hxy.2]; tauto)
      have h2 : bget b x y = emptyCell :=
        bget_oob _ x y (by rw [hxy.1, hxy.2]; tauto)
      rw [h1, h2]
  · exact congrArg Cell.double_move (bget_bset_ne _ _ _ _ _ _ (by tauto))

/-- `bsetFlag` never changes the piece letter or the color. -/
theorem piece_bsetFlag (b : Board) (x0 y0 : Int) (v : Bool) (x y : Int) :
    (bget (bsetFlag b x0 y0 v) x y).piece = (bget b x y).piece := by
  by_cases hxy : x = x0 ∧ y = y0
  · by_cases hr : (0 ≤ x0 ∧ x0 < 8) ∧ (0 ≤ y0 ∧ y0 < 8)
    · rw [hxy.1, hxy.2]
      unfold bsetFlag
      rw [bget_bset_same _ _ _ _ hr.1 hr.2]
    · have h1 : bget (bsetFlag b x0 y0 v) x y = emptyCell :=
        bget_oob _ x y (by rw [hxy.1, hxy.2]; tauto)
      have h2 : bget b x y = emptyCell :=
        bget_oob _ x y (by rw [hxy.1, hxy.2]; tauto)
      rw [h1, h2]
  · exact congrArg Cell.piece (bget_bsetFlag_ne _ _ _ _ _ _ (by tauto))

/-- The written cell of `bsetFlag ... false` is unflagged afterwards. -/
theorem flag_bsetFlag_false_self (b : Board) (x0 y0 : Int) :
    (bget (bsetFlag b x0 y0 false) x0 y0).double_move = false := by
  by_cases hr : (0 ≤ x0 ∧ x0 < 8) ∧ (0 ≤ y0 ∧ y0 < 8)
  · unfold bsetFlag
    rw [bget_bset_same _ _ _ _ hr.1 hr.2]
  · rw [bget_oob _ x0 y0 (by tauto)]
    rfl

/-- A cell flagged after `bsetFlag ... false` was flagged before and is not
the written cell. -/
theorem flag_after_clear (b : Board) (x0 y0 x y : Int)
    (h : (bget (bsetFlag b x0 y0 false) x y).double_move = true) :
    (bget b x y).double_move = true ∧ ¬(x = x0 ∧ y = y0) := by
  by_cases hxy : x = x0 ∧ y = y0
  · rw [hxy.1, hxy.2, flag_bsetFlag_false_self] at h
    cases h
  · rw [bget_bsetFlag_ne _ _ _ _ _ _ (by tauto)] at h
    exact ⟨h, hxy⟩

/-- A cell flagged after a cell write whose record is unflagged was flagged
before and is not the written cell. -/
theorem flag_after_unflagged_write (b : Board) (x0 y0 : Int) (c : Cell)
    (hc : c.double_move = false) (x y : Int)
    (h : (bget (bset b x0 y0 c) x y).double_move = true) :
    (bget b x y).double_move = true ∧ ¬(x = x0 ∧ y = y0) := by
  by_cases hxy : x = x0 ∧ y = y0
  · by_cases hr : (0 ≤ x0 ∧ x0 < 8) ∧ (0 ≤ y0 ∧ y0 < 8)
    · rw [hxy.1, hxy.2, bget_bset_same _ _ _ _ hr.1 hr.2] at h
      rw [hc] at h
      cases h
    · rw [bget_oob _ x y (by rw [hxy.1, hxy.2]; tauto)] at h
      cases h
  · rw [bget_bset_ne _ _ _ _ _ _ (by tauto)] at h
    exact ⟨h, hxy⟩

/-- A cell flagged after `bsetFlag ... true` is the written cell or was
flagged before. -/
theorem flag_after_set (b : Board) (x0 y0 x y : Int)
    (h : (bget (bsetFlag b x0 y0 true) x y).double_move = true) :
    (x = x0 ∧ y = y0) ∨ (bget b x y).double_move = true := by
  by_cases hxy : x = x0 ∧ y = y0
  · exact Or.inl hxy
  · rw [bget_bsetFlag_ne _ _ _ _ _ _ (by tauto)] at h
    exact Or.inr h

/-- A cell not the written one keeps its whole cell across `bset`-family. -/
theorem bget_epRemove_ne (b : Board) (x0 y0 x y : Int) (h : ¬(x = x0 ∧ y = y0)) :
    bget (epRemove b x0 y0) x y = bget b x y := by
  unfold epRemove
  exact bget_bset_ne _ _ _ _ _ _ (by tauto)

theorem valid_of_can_move_rook (b : Board) (s d : Int × Int) (cap w : Bool)
    (h : ChessBoard.can_move_rook b s d cap w = true) :
    ChessBoard.is_valid_dest b d.1 d.2 cap w = true := by
  unfold ChessBoard.can_move_rook at h
  split at h
  · exact (Bool.and_eq_true_iff.mp h).2
  · split at h
    · exact (Bool.and_eq_true_iff.mp h).2
    · cases h

theorem valid_of_can_move_bishop (b : Board) (s d : Int × Int) (cap w : Bool)
    (h : ChessBoard.can_move_bishop b s d cap w = true) :
    ChessBoard.is_valid_dest b d.1 d.2 cap w = true := by
  unfold ChessBoard.can_move_bishop at h
  dsimp only at h
  split at h
  · exact (Bool.and_eq_true_iff.mp h).2
  · cases h

theorem valid_of_can_move_nonpawn (piece : Char) (b : Board) (s d : Int × Int)
    (cap w : Bool) (hp : piece ≠ 'P') (r : Bool) (b1 : Board)
    (h : ChessBoard.can_move_piece piece b s d cap w = .ok (r, b1)) :
    b1 = b ∧ (r = true → ChessBoard.is_valid_dest b d.1 d.2 cap w = true) := by
  unfold ChessBoard.can_move_piece at h
  rw [if_neg hp] at h
  split at h
  · obtain ⟨h1, h2⟩ := Prod.mk.injEq .. ▸ Except.ok.inj h
    refine ⟨h2.symm, fun hr => ?_⟩
    rw [← h1] at hr
    exact valid_of_can_move_rook b s d cap w hr
  · split at h
    · obtain ⟨h1, h2⟩ := Prod.mk.injEq .. ▸ Except.ok.inj h
      refine ⟨h2.symm, fun hr => ?_⟩
      rw [← h1] at hr
      unfold ChessBoard.can_move_queen at hr
      rcases Bool.or_eq_true_iff.mp hr with hr | hr
      · exact valid_of_can_move_rook b s d cap w hr
      · exact valid_of_can_move_bishop b s d cap w hr
    · split at h
      · obtain ⟨h1, h2⟩ := Prod.mk.injEq .. ▸ Except.ok.inj h
        refine ⟨h2.symm, fun hr => ?_⟩
        rw [← h1] at hr
        unfold ChessBoard.can_move_knight at hr
        dsimp only at hr
        exact (Bool.and_eq_true_iff.mp hr).2
      · split at h
        · obtain ⟨h1, h2⟩ := Prod.mk.injEq .. ▸ Except.ok.inj h
          refine ⟨h2.symm, fun hr => ?_⟩
          rw [← h1] at hr
          exact valid_of_can_move_bishop b s d cap w hr
        · split at h
          · obtain ⟨h1, h2⟩ := Prod.mk.injEq .. ▸ Except.ok.inj h
            refine ⟨h2.symm, fun hr => ?_⟩
            rw [← h1] at hr
            unfold ChessBoard.can_move_king at hr
            dsimp only at hr
            exact (Bool.and_eq_true_iff.mp hr).2
          · cases h

end ChessReplay


namespace ChessReplay

/-- The en-passant sub-block of `can_move_pawn`: if it succeeds, the captured
cell held a pawn and the result board clears that cell. -/
theorem ep_block_cases (b : Board) (sx cy : Int) (w r : Bool) (b1 : Board)
    (h : (do
        iassert (ChessBoard.in_range cy) "can_move_pawn: en passant file out of range"
        iassert ((bget b sx cy).piece = 'P') "can_move_pawn: en passant target is not a pawn"
        iassert ((bget b sx cy).is_white = !w) "can_move_pawn: en passant wrong color"
        iassert (bget b sx cy).double_move "can_move_pawn: en passant target lacks double_move"
        Except.ok (true, bset b sx cy { bget b sx cy with piece := '.', double_move := false }))
      = Except.ok (r, b1)) :
    (bget b sx cy).piece = 'P' ∧
      b1 = bset b sx cy { bget b sx cy with piece := '.', double_move := false } := by
  by_cases hir : ChessBoard.in_range cy = true
  · by_cases hpp : (bget b sx cy).piece = 'P'
    · by_cases hcw : (bget b sx cy).is_white = !w
      · by_cases hdm : (bget b sx cy).double_move = true
        · simp only [iassert] at h
          rw [if_pos hir, if_pos (decide_eq_true hpp), if_pos (decide_eq_true hcw),
            if_pos hdm] at h
          simp only [bind, Except.bind] at h
          exact ⟨hpp, (congrArg Prod.snd (Except.ok.inj h)).symm⟩
        · simp only [iassert] at h
          rw [if_pos hir, if_pos (decide_eq_true hpp), if_pos (decide_eq_true hcw),
            if_neg hdm] at h
          exact absurd h (by simp [bind, Except.bind])
      · simp only [iassert] at h
        rw [if_pos hir, if_pos (decide_eq_true hpp),
          if_neg (fun hb => hcw (of_decide_eq_true hb))] at h
        exact absurd h (by simp [bind, Except.bind])
    · simp only [iassert] at h
      rw [if_pos hir, if_neg (fun hb => hpp (of_decide_eq_true hb))] at h
      exact absurd h (by simp [bind, Except.bind])
  · simp only [iassert] at h
    rw [if_neg hir] at h
    exact absurd h (by simp [bind, Except.bind])

/-- Board-mutation characterization of `can_move_pawn`: either the board is
untouched, or the en-passant branch removed an adjacent enemy pawn, or the
double-push branch set the destination flag on an empty square of row 3 or
row 4. -/
theorem can_move_pawn_cases (b : Board) (s d : Int × Int) (cap w : Bool)
    (r : Bool) (b1 : Board)
    (h : ChessBoard.can_move_pawn b s d cap w = .ok (r, b1)) :
    b1 = b ∨
    (cap = true ∧ (bget b s.1 (s.2 + (d.2 - s.2))).piece = 'P' ∧
      b1 = bset b s.1 (s.2 + (d.2 - s.2))
        { bget b s.1 (s.2 + (d.2 - s.2)) with piece := '.', double_move := false }) ∨
    (cap = false ∧ r = true ∧ (bget b d.1 d.2).piece = '.' ∧ (d.1 = 3 ∨ d.1 = 4) ∧
      b1 = bsetFlag b d.1 d.2 true) := by
  unfold ChessBoard.can_move_pawn at h
  dsimp only at h
  by_cases hcap : cap = true
  · rw [if_pos hcap] at h
    by_cases hc : (decide ((if w = true then s.1 - d.1 else d.1 - s.1) = 1) &&
        decide ((d.2 - s.2).natAbs = 1)) = true
    · rw [if_pos hc] at h
      by_cases hdst : (bget b d.1 d.2).piece = '.'
      · rw [if_pos hdst] at h
        have hep := ep_block_cases b s.1 (s.2 + (d.2 - s.2)) w r b1 h
        right; left
        exact ⟨hcap, hep.1, hep.2⟩
      · rw [if_neg hdst] at h
        left; exact (congrArg Prod.snd (Except.ok.inj h)).symm
    · rw [if_neg hc] at h
      left; exact (congrArg Prod.snd (Except.ok.inj h)).symm
  · rw [if_neg hcap] at h
    have hcapf : cap = false := by revert hcap; cases cap <;> simp
    by_cases hdx2 : (if w = true then s.1 - d.1 else d.1 - s.1) = 2
    · rw [if_pos hdx2] at h
      by_cases hfm : (decide (if w = true then s.1 = 6 else s.1 = 1) &&
          decide ((d.2 - s.2).natAbs = 0)) = true
      · rw [if_pos hfm] at h
        by_cases hf1 : ChessBoard.is_free_cell b
            (s.1 + (if w = true then (-1 : Int) else 1)) s.2 = true
        · rw [if_pos hf1] at h
          by_cases hf2 : ChessBoard.is_free_cell b
              (s.1 + (if w = true then (-1 : Int) else 1) +
                (if w = true then (-1 : Int) else 1)) s.2 = true
          · rw [if_pos hf2] at h
            have hpair := Except.ok.inj h
            right; right
            have hfm1 := (Bool.and_eq_true_iff.mp hfm).1
            have hdy0 : (d.2 - s.2).natAbs = 0 :=
              of_decide_eq_true (Bool.and_eq_true_iff.mp hfm).2
            have hyeq : d.2 = s.2 := by omega
            refine ⟨hcapf, (congrArg Prod.fst hpair).symm, ?_, ?_,
              (congrArg Prod.snd hpair).symm⟩
            · have hstep : s.1 + (if w = true then (-1 : Int) else 1) +
                  (if w = true then (-1 : Int) else 1) = d.1 := by
                rcases Bool.eq_false_or_eq_true w with hw | hw <;>
                  rw [hw] at hdx2 ⊢ <;> simp at hdx2 ⊢ <;> omega
              rw [hstep, ← hyeq] at hf2
              unfold ChessBoard.is_free_cell at hf2
              simpa using hf2
            · rcases Bool.eq_false_or_eq_true w with hw | hw <;>
                rw [hw] at hdx2 hfm1 <;> simp at hdx2 hfm1 <;> omega
          · rw [if_neg hf2] at h
            left; exact (congrArg Prod.snd (Except.ok.inj h)).symm
        · rw [if_neg hf1] at h
          left; exact (congrArg Prod.snd (Except.ok.inj h)).symm
      · rw [if_neg hfm] at h
        left; exact (congrArg Prod.snd (Except.ok.inj h)).symm
    · rw [if_neg hdx2] at h
      by_cases hdx1 : (if w = true then s.1 - d.1 else d.1 - s.1) = 1
      · rw [if_pos hdx1] at h
        left; exact (congrArg Prod.snd (Except.ok.inj h)).symm
      · rw [if_neg hdx1] at h
        left; exact (congrArg Prod.snd (Except.ok.inj h)).symm

end ChessReplay

namespace ChessReplay

/-- Eliminator for a successful monadic bind over `Except String`. -/
theorem except_bind_ok {α β : Type} (x : Except String α) (f : α → Except String β)
    (v : β) (h : bind x f = Except.ok v) :
    ∃ a, x = Except.ok a ∧ f a = Except.ok v := by
  rcases x with e | a
  · exact absurd h (by simp [bind, Except.bind])
  · refine ⟨a, rfl, ?_⟩
    simpa only [bind, Except.bind] using h

/-- A passing `INTERNAL_ASSERT` had a true condition. -/
theorem iassert_ok (c : Bool) (m : String) (u : Unit) (h : iassert c m = .ok u) :
    c = true := by
  by_cases hc : c = true
  · exact hc
  · exact absurd h (by simp [iassert, hc])

/-- `can_move_piece` on a pawn descriptor is `can_move_pawn`. -/
theorem can_move_piece_pawn (b : Board) (s d : Int × Int) (cap w : Bool)
    (r : Bool) (b1 : Board)
    (h : ChessBoard.can_move_piece 'P' b s d cap w = .ok (r, b1)) :
    ChessBoard.can_move_pawn b s d cap w = .ok (r, b1) := by
  unfold ChessBoard.can_move_piece at h
  rw [if_pos rfl] at h
  exact h

/-- `bsetWhite` never changes a piece letter. -/
theorem piece_bsetWhite (b : Board) (x0 y0 : Int) (w : Bool) (x y : Int) :
    (bget (bsetWhite b x0 y0 w) x y).piece = (bget b x y).piece := by
  by_cases hxy : x = x0 ∧ y = y0
  · by_cases hr : (0 ≤ x0 ∧ x0 < 8) ∧ (0 ≤ y0 ∧ y0 < 8)
    · rw [hxy.1, hxy.2]
      unfold bsetWhite
      rw [bget_bset_same _ _ _ _ hr.1 hr.2]
    · have h1 : bget (bsetWhite b x0 y0 w) x y = emptyCell :=
        bget_oob _ x y (by rw [hxy.1, hxy.2]; tauto)
      have h2 : bget b x y = emptyCell :=
        bget_oob _ x y (by rw [hxy.1, hxy.2]; tauto)
      rw [h1, h2]
  · exact congrArg Cell.piece (bget_bset_ne _ _ _ _ _ _ (by tauto))

/-- The written cell of an in-range `bsetPiece` carries the new piece. -/
theorem piece_bsetPiece_self (b : Board) (x0 y0 : Int) (p : Char)
    (hx : 0 ≤ x0 ∧ x0 < 8) (hy : 0 ≤ y0 ∧ y0 < 8) :
    (bget (bsetPiece b x0 y0 p) x0 y0).piece = p := by
  unfold bsetPiece
  rw [bget_bset_same _ _ _ _ hx hy]

/-- Every candidate pair's source comes from the source-candidate list. -/
theorem pairList_mem (srcs dsts : List (Int × Int)) (p : (Int × Int) × (Int × Int))
    (hp : p ∈ ChessBoard.pairList srcs dsts) : p.1 ∈ srcs := by
  unfold ChessBoard.pairList at hp
  simp only [List.mem_flatMap, List.mem_map] at hp
  obtain ⟨s, hs, d, hd, hpd⟩ := hp
  rw [← hpd]
  exact hs

/-- Every source candidate (given a trusted full hint) holds the moving piece
on the enumeration board. -/
theorem srcCandidates_piece (b : Board) (mv : NextMove)
    (hhint : ∀ x y, mv.src.x = some x → mv.src.y = some y →
      (bget b x y).piece = mv.piece)
    (s : Int × Int) (hs : s ∈ ChessBoard.srcCandidates b mv) :
    (bget b s.1 s.2).piece = mv.piece := by
  unfold ChessBoard.srcCandidates at hs
  rcases hx : mv.src.x with _ | x <;> rcases hy : mv.src.y with _ | y <;>
    rw [hx, hy] at hs <;> dsimp only at hs
  · simp only [List.mem_flatMap, List.mem_filterMap, List.mem_range] at hs
    obtain ⟨i, hi, j, hj, hij⟩ := hs
    split at hij
    · next hc => cases hij; exact hc.1
    · cases hij
  · simp only [List.mem_filterMap, List.mem_range] at hs
    obtain ⟨i, hi, hij⟩ := hs
    split at hij
    · next hc => cases hij; exact hc.1
    · cases hij
  · simp only [List.mem_filterMap, List.mem_range] at hs
    obtain ⟨j, hj, hij⟩ := hs
    split at hij
    · next hc => cases hij; exact hc.1
    · cases hij
  · simp only [List.mem_singleton] at hs
    rw [hs]
    exact hhint x y hx hy

/-- The fold invariant holds at the loop entry state. -/
theorem foldInv_init (mv : NextMove) (b0 : Board) (hdm : DMInv b0) :
    FoldInv mv b0 ⟨0, none, b0⟩ := by
  refine ⟨?_, ?_, ?_, ?_, ?_, ?_, ?_, ?_⟩
  · intro x y hf
    have h := DMInv_bget b0 hdm x y hf
    exact ⟨h.2, Or.inl h.1⟩
  · intro _; rfl
  · intro p hp; cases hp
  · intro _ fs fd hfd; cases hfd
  · intro _ x y; exact ⟨rfl, fun h => h⟩
  · intro _ _ fs fd hfd; cases hfd
  · intro _ _ fs fd hfd; cases hfd
  · intro fs fd hfd; cases hfd

end ChessReplay

namespace ChessReplay

/-- Writing an unflagged cell record leaves the written square unflagged. -/
theorem flag_bset_unflagged_self (b : Board) (x0 y0 : Int) (c : Cell)
    (hc : c.double_move = false) :
    (bget (bset b x0 y0 c) x0 y0).double_move = false := by
  by_cases hr : (0 ≤ x0 ∧ x0 < 8) ∧ (0 ≤ y0 ∧ y0 < 8)
  · rw [bget_bset_same _ _ _ _ hr.1 hr.2]
    exact hc
  · rw [bget_oob _ x0 y0 (by tauto)]
    rfl

/-- One `evalStep` preserves the candidate-fold invariant, provided the pair's
source square holds the moving piece on the enumeration board. -/
theorem foldInv_step (mv : NextMove) (b0 : Board) (st st1 : ChessBoard.EvalState)
    (p : (Int × Int) × (Int × Int))
    (hstep : ChessBoard.evalStep mv st p = .ok st1)
    (hsp : (bget b0 p.1.1 p.1.2).piece = mv.piece)
    (hinv : FoldInv mv b0 st) : FoldInv mv b0 st1 := by
  rcases ChessBoard.evalStep_ok mv st p st1 hstep with heq | ⟨r, b1, hcm, hmc, hcase⟩
  · rw [heq]; exact hinv
  rcases hcase with ⟨hfnone, hmc1, hfnd, hclean⟩ | ⟨hncond, hfnd, hbd⟩
  · -- recording case: this pair became the first (and only) match so far
    have hmc0 : st.matchCount = 0 := hinv.found_matches hfnone
    have hfsub : ∀ fs fd : Int × Int, st1.found = some (fs, fd) → fs = p.1 ∧ fd = p.2 := by
      intro fs fd hfd
      rw [hfnd] at hfd
      have hpe := Option.some.inj hfd
      constructor
      · rw [hpe]
      · rw [hpe]
    rcases hclean with ⟨hP, hcln⟩ | ⟨hP, hcap, hcln⟩ | ⟨hP, hcap, hbd1⟩
    · -- pawn move
      have hcmP : ChessBoard.can_move_pawn st.board p.1 p.2 mv.capture mv.is_white_move
          = .ok (r, b1) := by
        rw [hP] at hcm
        exact can_move_piece_pawn _ _ _ _ _ _ _ hcm
      have hpc := can_move_pawn_cases st.board p.1 p.2 mv.capture mv.is_white_move r b1 hcmP
      have hsrcflag : (bget st1.board p.1.1 p.1.2).double_move = false := by
        rcases hcln with ⟨hfl, hb⟩ | ⟨hfl, hb⟩
        · rw [hb]; exact flag_bsetFlag_false_self b1 p.1.1 p.1.2
        · rw [hb]; exact hfl
      have hst1b1 : ∀ x y : Int, ((bget st1.board x y).double_move = true →
          (bget b1 x y).double_move = true) ∧
          (bget st1.board x y).piece = (bget b1 x y).piece := by
        intro x y
        rcases hcln with ⟨hfl, hb⟩ | ⟨hfl, hb⟩
        · rw [hb]
          exact ⟨fun hf => (flag_after_clear b1 _ _ x y hf).1, piece_bsetFlag b1 _ _ _ x y⟩
        · rw [hb]; exact ⟨fun h => h, rfl⟩
      refine ⟨?_, ?_, ?_, ?_, ?_, ?_, ?_, ?_⟩
      · intro x y hf
        have hfb1 := (hst1b1 x y).1 hf
        have hpieceeq := (hst1b1 x y).2
        rcases hpc with hb1 | ⟨hcapT, hppc, hb1⟩ | ⟨hcapF, hrT, hemp, hrow, hb1⟩
        · rw [hb1] at hfb1 hpieceeq
          have hold := hinv.flag_ok x y hfb1
          rcases hold.2 with hPc | ⟨_, _, h2m | ⟨fs, hfs⟩⟩
          · exact ⟨hold.1, Or.inl (by rw [hpieceeq]; exact hPc)⟩
          · exfalso; omega
          · rw [hfnone] at hfs; cases hfs
        · rw [hb1] at hfb1 hpieceeq
          obtain ⟨hfst, hne⟩ := flag_after_unflagged_write st.board _ _ _ rfl x y hfb1
          have hold := hinv.flag_ok x y hfst
          rcases hold.2 with hPc | ⟨_, _, h2m | ⟨fs, hfs⟩⟩
          · refine ⟨hold.1, Or.inl ?_⟩
            rw [hpieceeq, bget_bset_ne _ _ _ _ _ _ (by tauto)]
            exact hPc
          · exfalso; omega
          · rw [hfnone] at hfs; cases hfs
        · rw [hb1] at hfb1 hpieceeq
          rcases flag_after_set st.board p.2.1 p.2.2 x y hfb1 with hxy | hfst
          · refine ⟨by rw [hxy.1]; exact hrow, Or.inr ⟨?_, hP, Or.inr ⟨p.1, ?_⟩⟩⟩
            · rw [hpieceeq, piece_bsetFlag, hxy.1, hxy.2]
              exact hemp
            · have hxyp : (x, y) = p.2 := by rw [hxy.1, hxy.2]
              rw [hfnd, hxyp]
          · have hold := hinv.flag_ok x y hfst
            rcases hold.2 with hPc | ⟨_, _, h2m | ⟨fs, hfs⟩⟩
            · refine ⟨hold.1, Or.inl ?_⟩
              rw [hpieceeq, piece_bsetFlag]
              exact hPc
            · exfalso; omega
            · rw [hfnone] at hfs; cases hfs
      · intro hnone; rw [hfnd] at hnone; cases hnone
      · intro q hq; omega
      · intro hPP fs fd hfd
        right
        rw [(hfsub fs fd hfd).1]
        exact hsrcflag
      · intro hPP; exact absurd hP hPP
      · intro hPP; exact absurd hP hPP
      · intro hPP; exact absurd hP hPP
      · intro fs fd hfd
        rw [(hfsub fs fd hfd).1]
        exact hsp
    · -- non-pawn capture
      have hnb := valid_of_can_move_nonpawn mv.piece st.board p.1 p.2 mv.capture
        mv.is_white_move hP r b1 hcm
      have hb1 : b1 = st.board := hnb.1
      have hdstflag : (bget st1.board p.2.1 p.2.2).double_move = false := by
        rcases hcln with ⟨_, _, hb⟩ | ⟨hfl, hb⟩
        · rw [hb]; exact flag_bsetFlag_false_self b1 p.2.1 p.2.2
        · rw [hb]; exact hfl
      have hst1tr : ∀ x y : Int, ((bget st1.board x y).double_move = true →
          (bget st.board x y).double_move = true) ∧
          (bget st1.board x y).piece = (bget st.board x y).piece := by
        intro x y
        rcases hcln with ⟨_, _, hb⟩ | ⟨_, hb⟩
        · rw [hb, hb1]
          exact ⟨fun hf => (flag_after_clear _ _ _ x y hf).1,
            piece_bsetFlag st.board _ _ _ x y⟩
        · rw [hb, hb1]; exact ⟨fun h => h, rfl⟩
      refine ⟨?_, ?_, ?_, ?_, ?_, ?_, ?_, ?_⟩
      · intro x y hf
        have hfo := (hst1tr x y).1 hf
        have hold := hinv.flag_ok x y hfo
        rcases hold.2 with hPc | ⟨_, _, h2m | ⟨fs, hfs⟩⟩
        · exact ⟨hold.1, Or.inl (by rw [(hst1tr x y).2]; exact hPc)⟩
        · exfalso; omega
        · rw [hfnone] at hfs; cases hfs
      · intro hnone; rw [hfnd] at hnone; cases hnone
      · intro q hq; omega
      · intro hPP; exact absurd hPP hP
      · intro hPP x y
        refine ⟨?_, ?_⟩
        · rw [(hst1tr x y).2]; exact (hinv.pieces_stable hPP x y).1
        · intro hf; exact (hinv.pieces_stable hPP x y).2 ((hst1tr x y).1 hf)
      · intro hPP hcapT fs fd hfd
        rw [(hfsub fs fd hfd).2]
        exact hdstflag
      · intro hPP hcapF; rw [hcap] at hcapF; cases hcapF
      · intro fs fd hfd
        rw [(hfsub fs fd hfd).1]
        exact hsp
    · -- non-pawn non-capture
      have hnb := valid_of_can_move_nonpawn mv.piece st.board p.1 p.2 mv.capture
        mv.is_white_move hP r b1 hcm
      have hbs : st1.board = st.board := by rw [hbd1, hnb.1]
      have hr : r = true := by
        rcases Bool.eq_false_or_eq_true r with h | h
        · exact h
        · exfalso; rw [h] at hmc; simp at hmc; omega
      have hvd := hnb.2 hr
      have hde : (bget st.board p.2.1 p.2.2).piece = '.' := by
        unfold ChessBoard.is_valid_dest at hvd
        rw [hcap] at hvd
        simpa using hvd
      refine ⟨?_, ?_, ?_, ?_, ?_, ?_, ?_, ?_⟩
      · intro x y hf
        rw [hbs] at hf ⊢
        have hold := hinv.flag_ok x y hf
        rcases hold.2 with hPc | ⟨_, _, h2m | ⟨fs, hfs⟩⟩
        · exact ⟨hold.1, Or.inl hPc⟩
        · exfalso; omega
        · rw [hfnone] at hfs; cases hfs
      · intro hnone; rw [hfnd] at hnone; cases hnone
      · intro q hq; omega
      · intro hPP; exact absurd hPP hP
      · intro hPP x y
        rw [hbs]
        exact hinv.pieces_stable hPP x y
      · intro hPP hcapT; rw [hcap] at hcapT; cases hcapT
      · intro hPP hcapF fs fd hfd
        rw [(hfsub fs fd hfd).2]
        have hps := (hinv.pieces_stable hPP p.2.1 p.2.2).1
        rw [← hps]
        exact hde
      · intro fs fd hfd
        rw [(hfsub fs fd hfd).1]
        exact hsp
  · -- non-recording case: found and its bookkeeping carry over
    have hmono : st.matchCount ≤ st1.matchCount := by
      rw [hmc]
      rcases Bool.eq_false_or_eq_true r with h | h <;> rw [h] <;> simp
    have Hfm : st1.found = none → st1.matchCount = 0 := by
      intro hnone
      rw [hfnd] at hnone
      have h0 := hinv.found_matches hnone
      rcases Bool.eq_false_or_eq_true r with hrT | hrF
      · exact absurd ⟨hnone, by simp [h0, hrT]⟩ hncond
      · rw [hmc, hrF, h0]; simp
    have Hfp : ∀ q, st1.found = some q → 1 ≤ st1.matchCount := by
      intro q hq
      rw [hfnd] at hq
      exact le_trans (hinv.found_pos q hq) hmono
    have Hfs : ∀ fs fd, st1.found = some (fs, fd) → (bget b0 fs.1 fs.2).piece = mv.piece := by
      intro fs fd hfd
      rw [hfnd] at hfd
      exact hinv.found_src fs fd hfd
    by_cases hP : mv.piece = 'P'
    · -- pawn move
      have hcmP : ChessBoard.can_move_pawn st.board p.1 p.2 mv.capture mv.is_white_move
          = .ok (r, b1) := by
        rw [hP] at hcm
        exact can_move_piece_pawn _ _ _ _ _ _ _ hcm
      have hpc := can_move_pawn_cases st.board p.1 p.2 mv.capture mv.is_white_move r b1 hcmP
      have h2le : r = true → 2 ≤ st1.matchCount := by
        intro hrT
        rcases hsf : st.found with _ | q
        · exact absurd ⟨hsf, by simp [hinv.found_matches hsf, hrT]⟩ hncond
        · have h1 := hinv.found_pos q hsf
          rw [hmc, hrT]
          simp
          omega
      refine ⟨?_, Hfm, Hfp, ?_, ?_, ?_, ?_, Hfs⟩
      · intro x y hf
        rw [hbd] at hf ⊢
        rcases hpc with hb1 | ⟨hcapT, hppc, hb1⟩ | ⟨hcapF, hrT, hemp, hrow, hb1⟩
        · rw [hb1] at hf ⊢
          have hold := hinv.flag_ok x y hf
          refine ⟨hold.1, ?_⟩
          rcases hold.2 with hPc | ⟨hdot, hmp, h2m | ⟨fs, hfs⟩⟩
          · exact Or.inl hPc
          · exact Or.inr ⟨hdot, hmp, Or.inl (le_trans h2m hmono)⟩
          · exact Or.inr ⟨hdot, hmp, Or.inr ⟨fs, by rw [hfnd]; exact hfs⟩⟩
        · rw [hb1] at hf ⊢
          obtain ⟨hfst, hne⟩ := flag_after_unflagged_write st.board _ _ _ rfl x y hf
          have hold := hinv.flag_ok x y hfst
          refine ⟨hold.1, ?_⟩
          rw [bget_bset_ne _ _ _ _ _ _ (by tauto)]
          rcases hold.2 with hPc | ⟨hdot, hmp, h2m | ⟨fs, hfs⟩⟩
          · exact Or.inl hPc
          · exact Or.inr ⟨hdot, hmp, Or.inl (le_trans h2m hmono)⟩
          · exact Or.inr ⟨hdot, hmp, Or.inr ⟨fs, by rw [hfnd]; exact hfs⟩⟩
        · rw [hb1] at hf ⊢
          rcases flag_after_set st.board p.2.1 p.2.2 x y hf with hxy | hfst
          · refine ⟨by rw [hxy.1]; exact hrow, Or.inr ⟨?_, hP, Or.inl (h2le hrT)⟩⟩
            rw [piece_bsetFlag, hxy.1, hxy.2]
            exact hemp
          · have hold := hinv.flag_ok x y hfst
            refine ⟨hold.1, ?_⟩
            rw [piece_bsetFlag]
            rcases hold.2 with hPc | ⟨hdot, hmp, h2m | ⟨fs, hfs⟩⟩
            · exact Or.inl hPc
            · exact Or.inr ⟨hdot, hmp, Or.inl (le_trans h2m hmono)⟩
            · exact Or.inr ⟨hdot, hmp, Or.inr ⟨fs, by rw [hfnd]; exact hfs⟩⟩
      · intro hPP fs fd hfd
        rw [hfnd] at hfd
        rcases hinv.src_clear hPP fs fd hfd with h2m | hflf
        · exact Or.inl (le_trans h2m hmono)
        · rcases hpc with hb1 | ⟨hcapT, hppc, hb1⟩ | ⟨hcapF, hrT, hemp, hrow, hb1⟩
          · right; rw [hbd, hb1]; exact hflf
          · right; rw [hbd, hb1]
            by_cases hc : fs.1 = p.1.1 ∧ fs.2 = p.1.2 + (p.2.2 - p.1.2)
            · rw [hc.1, hc.2]
              exact flag_bset_unflagged_self _ _ _ _ rfl
            · rw [bget_bset_ne _ _ _ _ _ _ (by tauto)]
              exact hflf
          · exact Or.inl (h2le hrT)
      · intro hPP; exact absurd hP hPP
      · intro hPP; exact absurd hP hPP
      · intro hPP; exact absurd hP hPP
    · -- non-pawn move
      have hnb := valid_of_can_move_nonpawn mv.piece st.board p.1 p.2 mv.capture
        mv.is_white_move hP r b1 hcm
      have hbs : st1.board = st.board := by rw [hbd, hnb.1]
      refine ⟨?_, Hfm, Hfp, ?_, ?_, ?_, ?_, Hfs⟩
      · intro x y hf
        rw [hbs] at hf ⊢
        have hold := hinv.flag_ok x y hf
        refine ⟨hold.1, ?_⟩
        rcases hold.2 with hPc | ⟨hdot, hmp, h2m | ⟨fs, hfs⟩⟩
        · exact Or.inl hPc
        · exact Or.inr ⟨hdot, hmp, Or.inl (le_trans h2m hmono)⟩
        · exact Or.inr ⟨hdot, hmp, Or.inr ⟨fs, by rw [hfnd]; exact hfs⟩⟩
      · intro hPP; exact absurd hPP hP
      · intro hPP x y
        rw [hbs]
        exact hinv.pieces_stable hPP x y
      · intro hPP hcapT fs fd hfd
        rw [hfnd] at hfd
        rw [hbs]
        exact hinv.dst_clear hPP hcapT fs fd hfd
      · intro hPP hcapF fs fd hfd
        rw [hfnd] at hfd
        exact hinv.dst_was_empty hPP hcapF fs fd hfd

end ChessReplay

namespace ChessReplay

/-- The fold invariant is preserved along the whole candidate-pair loop. -/
theorem evalPairs_foldInv (mv : NextMove) (b0 : Board) :
    ∀ (pairs : List ((Int × Int) × (Int × Int))) (st st' : ChessBoard.EvalState),
      ChessBoard.evalPairs mv pairs st = .ok st' →
      (∀ p ∈ pairs, (bget b0 p.1.1 p.1.2).piece = mv.piece) →
      FoldInv mv b0 st → FoldInv mv b0 st' := by
  intro pairs
  induction pairs with
  | nil =>
    intro st st' h _ hinv
    unfold ChessBoard.evalPairs at h
    cases h
    exact hinv
  | cons p ps ih =>
    intro st st' h hmem hinv
    unfold ChessBoard.evalPairs at h
    rcases hstep : ChessBoard.evalStep mv st p with e | st1 <;> rw [hstep] at h <;>
      simp only [bind, Except.bind] at h
    · cases h
    · exact ih st1 st' h (fun q hq => hmem q (List.mem_cons_of_mem p hq))
        (foldInv_step mv b0 st st1 p hstep (hmem p (List.mem_cons_self p ps)) hinv)

end ChessReplay

namespace ChessReplay

/-- A successful `NextMove` application preserves the pawn-on-row-3-or-4
shape of `double_move` flags (no promotion, trusted source hints). -/
theorem applyNext_DMInv (mv : NextMove) (b b' : Board) (hdm : DMInv b)
    (hpr : mv.promote_piece = none)
    (hhint : ∀ x y, mv.src.x = some x → mv.src.y = some y →
      (bget b x y).piece = mv.piece)
    (h : ChessBoard.applyNext mv b = .ok b') : DMInv b' := by
  unfold ChessBoard.applyNext at h
  obtain ⟨u1, h1, h⟩ := except_bind_ok _ _ _ h
  obtain ⟨u2, h2, h⟩ := except_bind_ok _ _ _ h
  obtain ⟨u3, h3, h⟩ := except_bind_ok _ _ _ h
  obtain ⟨dc, hdc, h⟩ := except_bind_ok _ _ _ h
  obtain ⟨u4, h4, h⟩ := except_bind_ok _ _ _ h
  obtain ⟨st, hst, h⟩ := except_bind_ok _ _ _ h
  obtain ⟨u5, h5, h⟩ := except_bind_ok _ _ _ h
  have hmc1 : st.matchCount = 1 := of_decide_eq_true (iassert_ok _ _ _ h5)
  have hfi : FoldInv mv b st :=
    evalPairs_foldInv mv b _ _ _ hst
      (fun p hp => srcCandidates_piece b mv hhint p.1
        (pairList_mem (ChessBoard.srcCandidates b mv) dc p hp))
      (foldInv_init mv b hdm)
  rcases hf : st.found with _ | pair
  · rw [hf] at h
    exact Except.noConfusion h
  · rw [hf, hpr] at h
    dsimp only at h
    have hXb := Except.ok.inj h
    subst hXb
    have hsrcflag : (bget st.board pair.1.1 pair.1.2).double_move = false := by
      by_cases hP : mv.piece = 'P'
      · rcases hfi.src_clear hP pair.1 pair.2 (by rw [hf]) with h2m | hff
        · exfalso; omega
        · exact hff
      · rcases Bool.eq_false_or_eq_true
            ((bget st.board pair.1.1 pair.1.2).double_move) with hT | hF
        · exfalso
          have hb0fl := (hfi.pieces_stable hP pair.1.1 pair.1.2).2 hT
          have hbp := (DMInv_bget b hdm pair.1.1 pair.1.2 hb0fl).1
          have hsrc := hfi.found_src pair.1 pair.2 (by rw [hf])
          rw [hsrc] at hbp
          exact hP hbp
        · exact hF
    refine DMInv_of_bget _ (fun x y hfl => ?_)
    rw [flag_bsetWhite, flag_bsetPiece, flag_bsetPiece] at hfl
    obtain ⟨hxr, hyr⟩ := bget_flag_in_range st.board x y hfl
    have hold := hfi.flag_ok x y hfl
    by_cases hxs : x = pair.1.1 ∧ y = pair.1.2
    · exfalso
      rw [hxs.1, hxs.2, hsrcflag] at hfl
      cases hfl
    · by_cases hxd : x = pair.2.1 ∧ y = pair.2.2
      · have hpe : (bget (bsetWhite
            (bsetPiece (bsetPiece st.board pair.2.1 pair.2.2 mv.piece)
              pair.1.1 pair.1.2 '.')
            pair.2.1 pair.2.2 mv.is_white_move) x y).piece = mv.piece := by
          rw [hxd.1, hxd.2, piece_bsetWhite,
            bget_bsetPiece_ne _ _ _ _ _ _ (by omega),
            piece_bsetPiece_self st.board pair.2.1 pair.2.2 mv.piece
              (by rw [← hxd.1]; exact hxr) (by rw [← hxd.2]; exact hyr)]
        rcases hold.2 with hPc | ⟨hdot, hmp, _⟩
        · by_cases hP : mv.piece = 'P'
          · exact ⟨by rw [hpe, hP], hold.1⟩
          · exfalso
            by_cases hcap : mv.capture = true
            · have hdcl := hfi.dst_clear hP hcap pair.1 pair.2 (by rw [hf])
              rw [hxd.1, hxd.2, hdcl] at hfl
              cases hfl
            · have hcf : mv.capture = false := by
                rcases Bool.eq_false_or_eq_true mv.capture with hT | hF
                · exact absurd hT hcap
                · exact hF
              have hde := hfi.dst_was_empty hP hcf pair.1 pair.2 (by rw [hf])
              rw [hxd.1, hxd.2] at hfl
              have hbfl := (hfi.pieces_stable hP pair.2.1 pair.2.2).2 hfl
              have hbp := (DMInv_bget b hdm pair.2.1 pair.2.2 hbfl).1
              rw [hde] at hbp
              exact absurd hbp (by decide)
        · exact ⟨by rw [hpe, hmp], hold.1⟩
      · have hpe : (bget (bsetWhite
            (bsetPiece (bsetPiece st.board pair.2.1 pair.2.2 mv.piece)
              pair.1.1 pair.1.2 '.')
            pair.2.1 pair.2.2 mv.is_white_move) x y).piece =
            (bget st.board x y).piece := by
          rw [piece_bsetWhite, bget_bsetPiece_ne _ _ _ _ _ _ (by omega),
            bget_bsetPiece_ne _ _ _ _ _ _ (by omega)]
        rcases hold.2 with hPc | ⟨hdot, hmp, h2m | ⟨fs, hfs⟩⟩
        · exact ⟨by rw [hpe]; exact hPc, hold.1⟩
        · exfalso; omega
        · exfalso
          rw [hf] at hfs
          have hpfs := Option.some.inj hfs
          exact hxd ⟨by rw [hpfs], by rw [hpfs]⟩

end ChessReplay

namespace ChessReplay

/-- Queenside castling preserves the pawn-on-row-3-or-4 flag shape: all four
back-rank writes touch row 0 or row 7 with unflagged records. -/
theorem applyQueenCastling_DMInv (w : Bool) (b b' : Board) (hdm : DMInv b)
    (h : ChessBoard.applyQueenCastling w b = .ok b') : DMInv b' := by
  unfold ChessBoard.applyQueenCastling at h
  dsimp only at h
  generalize hR : (if w = true then (7 : Int) else 0) = row at h
  have hrowv : row = 7 ∨ row = 0 := by
    rw [← hR]
    rcases Bool.eq_false_or_eq_true w with hw | hw <;> rw [hw] <;> simp
  obtain ⟨u1, h1, h⟩ := except_bind_ok _ _ _ h
  obtain ⟨u2, h2, h⟩ := except_bind_ok _ _ _ h
  have hXb := Except.ok.inj h
  subst hXb
  have hrnf : ∀ ycol : Int, (bget b row ycol).double_move = false := by
    intro ycol
    rcases Bool.eq_false_or_eq_true ((bget b row ycol).double_move) with hT | hF
    · exfalso
      have := (DMInv_bget b hdm row ycol hT).2
      rcases hrowv with h7 | h0 <;> omega
    · exact hF
  have hcell3 : (bget (bsetPiece (bset b row 2 (bget b row 4)) row 4 '.')
      row 0).double_move = false := by
    rw [flag_bsetPiece, bget_bset_ne _ _ _ _ _ _ (by omega)]
    exact hrnf 0
  refine DMInv_of_bget _ (fun x y hfl => ?_)
  rw [flag_bsetPiece] at hfl
  obtain ⟨hfl, hne3⟩ := flag_after_unflagged_write _ _ _ _ hcell3 x y hfl
  rw [flag_bsetPiece] at hfl
  obtain ⟨hfl, hne1⟩ := flag_after_unflagged_write _ _ _ _ (hrnf 4) x y hfl
  have hbp := DMInv_bget b hdm x y hfl
  have hxnr : x ≠ row := by
    rcases hrowv with h7 | h0 <;> rcases hbp.2 with h3 | h4 <;> omega
  refine ⟨?_, hbp.2⟩
  rw [bget_bsetPiece_ne _ _ _ _ _ _ (Or.inl hxnr),
    bget_bset_ne _ _ _ _ _ _ (Or.inl hxnr),
    bget_bsetPiece_ne _ _ _ _ _ _ (Or.inl hxnr),
    bget_bset_ne _ _ _ _ _ _ (Or.inl hxnr)]
  exact hbp.1

/-- Kingside castling preserves the pawn-on-row-3-or-4 flag shape. -/
theorem applyKingCastling_DMInv (w : Bool) (b b' : Board) (hdm : DMInv b)
    (h : ChessBoard.applyKingCastling w b = .ok b') : DMInv b' := by
  unfold ChessBoard.applyKingCastling at h
  dsimp only at h
  generalize hR : (if w = true then (7 : Int) else 0) = row at h
  have hrowv : row = 7 ∨ row = 0 := by
    rw [← hR]
    rcases Bool.eq_false_or_eq_true w with hw | hw <;> rw [hw] <;> simp
  obtain ⟨u1, h1, h⟩ := except_bind_ok _ _ _ h
  obtain ⟨u2, h2, h⟩ := except_bind_ok _ _ _ h
  have hXb := Except.ok.inj h
  subst hXb
  have hrnf : ∀ ycol : Int, (bget b row ycol).double_move = false := by
    intro ycol
    rcases Bool.eq_false_or_eq_true ((bget b row ycol).double_move) with hT | hF
    · exfalso
      have := (DMInv_bget b hdm row ycol hT).2
      rcases hrowv with h7 | h0 <;> omega
    · exact hF
  have hcell3 : (bget (bsetPiece (bset b row 6 (bget b row 4)) row 4 '.')
      row 7).double_move = false := by
    rw [flag_bsetPiece, bget_bset_ne _ _ _ _ _ _ (by omega)]
    exact hrnf 7
  refine DMInv_of_bget _ (fun x y hfl => ?_)
  rw [flag_bsetPiece] at hfl
  obtain ⟨hfl, hne3⟩ := flag_after_unflagged_write _ _ _ _ hcell3 x y hfl
  rw [flag_bsetPiece] at hfl
  obtain ⟨hfl, hne1⟩ := flag_after_unflagged_write _ _ _ _ (hrnf 4) x y hfl
  have hbp := DMInv_bget b hdm x y hfl
  have hxnr : x ≠ row := by
    rcases hrowv with h7 | h0 <;> rcases hbp.2 with h3 | h4 <;> omega
  refine ⟨?_, hbp.2⟩
  rw [bget_bsetPiece_ne _ _ _ _ _ _ (Or.inl hxnr),
    bget_bset_ne _ _ _ _ _ _ (Or.inl hxnr),
    bget_bsetPiece_ne _ _ _ _ _ _ (Or.inl hxnr),
    bget_bset_ne _ _ _ _ _ _ (Or.inl hxnr)]
  exact hbp.1

end ChessReplay

namespace ChessReplay

/-- C2, amended: the claimed invariant fails as stated (see
`c2_counterexample`: after `1. e4 d5` two cells are flagged at once, and
after `2. exd5` a WHITE pawn sits flagged on rank 5), but the surviving part
holds: a successful `ChessBoard::apply` of any move descriptor -- with no
promotion and a trusted fully-specified source hint -- preserves the shape
invariant `DMInv`: every `double_move`-flagged cell holds a pawn and lies on
board row 3 or row 4 (rank 5 or rank 4).  Neither the at-most-one-flag bound
nor the white-on-rank-4 / black-on-rank-5 correlation is maintained by the
code. -/
theorem c2_amended (m : Moves) (b b' : Board) (hdm : DMInv b)
    (hnp : noPromotion m) (hsh : srcHintOK m b)
    (happ : ChessBoard.apply m b = .ok b') : DMInv b' := by
  cases m with
  | nextMove mv => exact applyNext_DMInv mv b b' hdm hnp hsh happ
  | queenCastling w => exact applyQueenCastling_DMInv w b b' hdm happ
  | kingCastling w => exact applyKingCastling_DMInv w b b' hdm happ
  | ignore => exact (Except.ok.inj happ) ▸ hdm
  | finish r => exact (Except.ok.inj happ) ▸ hdm

/-- C2 witness: the amended preservation theorem applied to `1. e4` on the
initial board. -/
theorem c2_witness : DMInv c2wBoard :=
  c2_amended (.nextMove e4mv) initBoard c2wBoard (by unfold DMInv; decide) rfl
    (fun x y hx _ => Option.noConfusion hx) (by decide)

end ChessReplay
